import Mathlib

/-!
# Verification of the excel-grade-entry application core

Shallow embedding of the grade-entry / edit-history engine
(`src/components/GradeTable.tsx`) and of the Excel structure-inference
engine (`src/utils/excelParser.ts`), together with proofs settling the
frozen specification claims.

Modelling conventions:
* JavaScript scalar cell values (`string | number`) are the type `Val`;
  JavaScript numbers are idealised as exact rationals plus signed
  infinities (`JSNum`); IEEE-754 rounding is not modelled (no claim
  depends on it).
* JavaScript truthiness (`x || ""`, `if (cell.v)`, `filter(Boolean)`) is
  modelled by `Val.truthy` / `jsOr`.
* React state updates inside one event handler are modelled as a single
  state transformation; an updater closure that reads a render-scope
  variable (rather than the `prev` argument) reads the *pre-event* value,
  exactly as React delivers it.  This matters for `addToEditHistory`,
  whose cursor updater reads the stale `editHistory.length`.
* `localStorage` (the external persisted store) is modelled as absent
  (empty), its documented non-fatal fallback.
-/

namespace GradeEntry

/-- An exact rational written as an explicit fraction (numerator over a
positive denominator, not necessarily reduced).  Used instead of
Mathlib's `ℚ` so that every operation reduces in the kernel; value
equality is by cross multiplication (`Q.eqb`), so reducedness is
irrelevant. -/
structure Q where
  num : Int
  den : Nat
deriving DecidableEq

/-- Value equality of fractions (`a/b = c/d ↔ ad = cb`). -/
def Q.eqb (a b : Q) : Bool := a.num * (b.den : Int) = b.num * (a.den : Int)

/-- Value order on fractions (denominators are positive). -/
def Q.ltb (a b : Q) : Bool := a.num * (b.den : Int) < b.num * (a.den : Int)

/-- JavaScript numbers, idealised: exact rationals plus signed infinity
(`inf true` is `+Infinity`); IEEE-754 rounding is not modelled.  `NaN`
never inhabits this type: the one producer modelled here (`parseFloat`)
returns `none` for NaN. -/
inductive JSNum where
  | fin : Q → JSNum
  | inf : Bool → JSNum
deriving DecidableEq

/-- Value equality of JavaScript numbers. -/
def JSNum.eqb : JSNum → JSNum → Bool
  | .fin a, .fin b => a.eqb b
  | .inf a, .inf b => a = b
  | _, _ => false

/-- A JavaScript cell / grade value: `string | number`. -/
inductive Val where
  | s : String → Val
  | n : JSNum → Val
deriving DecidableEq

/-- JavaScript strict equality `===` on cell values: string equality,
numeric value equality, and `false` across types. -/
def valEq : Val → Val → Bool
  | .s a, .s b => a = b
  | .n a, .n b => a.eqb b
  | _, _ => false

/-- JavaScript truthiness of a `Val`: `""` and `0` are falsy, every other
string/number (including infinities) is truthy. -/
def Val.truthy : Val → Bool
  | .s str => str ≠ ""
  | .n (.fin q) => q.num ≠ 0
  | .n (.inf _) => true

/-- Models the JavaScript idiom `x || ""` applied to a possibly-undefined
value: an absent or falsy value collapses to the empty string. -/
def jsOr (v : Option Val) : Val :=
  match v with
  | some w => if w.truthy then w else .s ""
  | none => .s ""

/-- Truthiness of a possibly-undefined value (`undefined` is falsy). -/
def optTruthy (v : Option Val) : Bool :=
  match v with
  | some w => w.truthy
  | none => false

/-! ## JS string primitives over explicit character lists

`String.toLower`/`trim`/`splitOn` from the core library do not reduce in
the kernel, so the JavaScript string operations used by the source are
re-implemented over `String.data`. -/

/-- ASCII lower-casing of one character (`String.prototype.toLowerCase`
restricted to ASCII; no header exercised by a claim contains a cased
non-ASCII letter). -/
def lowerChar (c : Char) : Char :=
  if 'A' ≤ c ∧ c ≤ 'Z' then Char.ofNat (c.toNat + 32) else c

/-- JavaScript `s.toLowerCase()`. -/
def jsToLower (s : String) : String := ⟨s.data.map lowerChar⟩

/-- Whitespace recognised by JavaScript string trimming / number parsing. -/
def jsWhitespace (c : Char) : Bool :=
  c = ' ' ∨ c = '\t' ∨ c = '\n' ∨ c = '\r' ∨ c = '\x0b' ∨ c = '\x0c'

/-- JavaScript `s.trim()`. -/
def jsTrim (s : String) : String :=
  ⟨(s.data.dropWhile jsWhitespace).reverse.dropWhile jsWhitespace |>.reverse⟩

/-- `pat` occurs as a contiguous sublist of `hay`. -/
def subList : List Char → List Char → Bool
  | pat, [] => pat.isEmpty
  | pat, c :: t => pat.isPrefixOf (c :: t) || subList pat t

/-- `pat` occurs as a contiguous substring of `hay`
(JavaScript `hay.includes(pat)`). -/
def strContains (hay pat : String) : Bool :=
  subList pat.data hay.data

/-- ASCII decimal digit. -/
def isDigit (c : Char) : Bool := '0' ≤ c ∧ c ≤ '9'

/-- Numeric value of a digit string (most significant first). -/
def digitsToNat (l : List Char) : ℕ :=
  l.foldl (fun a c => 10 * a + (c.toNat - 48)) 0

/-- JavaScript `parseFloat`: skip leading whitespace, read an optional
sign, then the longest prefix that is `Infinity`, `digits[.digits]` or
`.digits`, with an optional exponent part; trailing junk is ignored.
Returns `none` exactly when the result would be `NaN`. -/
def parseFloat (s : String) : Option JSNum :=
  let l := s.data.dropWhile jsWhitespace
  let sign : Int := match l with
    | '-' :: _ => -1
    | _ => 1
  let l' := match l with
    | '+' :: t => t
    | '-' :: t => t
    | _ => l
  if List.isPrefixOf "Infinity".data l' then some (.inf (sign > 0))
  else
    let intPart := l'.takeWhile isDigit
    let rest := l'.dropWhile isDigit
    let fracPair : List Char × List Char :=
      match rest with
      | '.' :: t => (t.takeWhile isDigit, t.dropWhile isDigit)
      | _ => ([], rest)
    let fracPart := fracPair.1
    let rest2 := fracPair.2
    if intPart = [] ∧ fracPart = [] then none
    else
      let expo : Int :=
        match rest2 with
        | e :: t =>
          if e = 'e' ∨ e = 'E' then
            let esign : Int := match t with
              | '-' :: _ => -1
              | _ => 1
            let t2 : List Char := match t with
              | '+' :: u => u
              | '-' :: u => u
              | _ => t
            let ed := t2.takeWhile isDigit
            if ed = [] then 0 else esign * (digitsToNat ed : Int)
          else 0
        | [] => 0
      -- value = sign · digits(int ++ frac) · 10^expo / 10^|frac|
      let mant : Int := sign * (digitsToNat (intPart ++ fracPart) : Int)
      if 0 ≤ expo then
        some (.fin ⟨mant * (10 : Int) ^ expo.toNat, (10 : Nat) ^ fracPart.length⟩)
      else
        some (.fin ⟨mant, (10 : Nat) ^ fracPart.length * (10 : Nat) ^ (-expo).toNat⟩)

/-! ## Data model (`src/types/index.ts`) -/

/-- `HeaderMapping` from `src/types/index.ts` (the extra index-signature
fields are never populated by the inference code). -/
structure HeaderMapping where
  id : String
  name : String
  grade : String
  gradeColumns : List String
deriving DecidableEq, Repr

/-- A student row record: a finite mapping from column-header strings to
cell values, modelled as a total function into `Option Val`
(`none` = the property is absent / `undefined`). -/
abbrev Student := String → Option Val

/-- The `grades` state: `Record<string, Record<string, string | number>>`,
keyed by student id then column. -/
abbrev Store := String → String → Option Val

/-- Setting one cell: `grades[sid] = { ...grades[sid], [col]: v }`. -/
def Store.set (g : Store) (sid col : String) (v : Val) : Store :=
  fun s c => if s = sid ∧ c = col then some v else g s c

/-- JavaScript `String(v)` on a cell value.  Number rendering is exact
for the integral values that occur; a non-integral rendering differs
from JS formatting but is exercised by no claim. -/
def valToString : Val → String
  | .s str => str
  | .n (.fin q) =>
    if q.den = 1 then toString q.num else toString q.num ++ "/" ++ toString q.den
  | .n (.inf b) => if b then "Infinity" else "-Infinity"

/-- JavaScript object-key coercion `String(x)` for the values used as
student identifiers. -/
def valToKey : Option Val → String
  | some v => valToString v
  | none => "undefined"

/-! ## The edit-history engine (`src/components/GradeTable.tsx`) -/

/-- One edit-history entry.  The source also records `timestamp : Date`
and `studentName` — display-only metadata never read back by
`saveGrade`/undo/redo/jump — which are omitted from the embedding. -/
structure EditHistoryEntry where
  studentId : String
  column : String
  oldValue : Val
  newValue : Val
deriving DecidableEq

/-- The component state relevant to the claims: the grade store, the edit
history and the history cursor (`currentHistoryIndex`, an integer in
`[-1, …]`). -/
structure GState where
  grades : Store
  editHistory : List EditHistoryEntry
  currentHistoryIndex : Int

/-- `addToEditHistory` (GradeTable.tsx:165-201).  Truncates the history to
`[0, currentHistoryIndex]`, appends the entry, caps the length at 50 by
dropping from the front (`slice(-50)`).  The cursor updater
`prev => Math.min(prev + 1, editHistory.length)` reads the render-scope
`editHistory`, i.e. the *pre-commit* history length. -/
def addToEditHistory (st : GState) (e : EditHistoryEntry) : GState :=
  let newHistory := st.editHistory.take (st.currentHistoryIndex + 1).toNat ++ [e]
  let capped :=
    if newHistory.length > 50 then newHistory.drop (newHistory.length - 50) else newHistory
  { st with
    editHistory := capped
    currentHistoryIndex := min (st.currentHistoryIndex + 1) (st.editHistory.length : Int) }

/-- `validateGrade` (GradeTable.tsx:221-233): empty clears the cell,
otherwise the text must not parse to `NaN`. -/
def validateGrade (value : String) : Bool :=
  if value = "" then true
  else (parseFloat value).isSome

/-- Outcome of a `saveGrade` call: `invalid` is the destructive
"Invalid Grade" toast branch (the claims' `ValidationError`). -/
inductive SaveResult where
  | ok
  | invalid
deriving DecidableEq

/-- Which branch `saveGrade` takes for a given raw text. -/
def saveGradeResult (tempGrade : String) : SaveResult :=
  if !validateGrade tempGrade then .invalid else .ok

/-- The committed value of `saveGrade`:
`tempGrade === "" ? "" : parseFloat(tempGrade)` (the NaN arm is
unreachable behind validation and modelled as `""`). -/
def newValOf (tempGrade : String) : Val :=
  if tempGrade = "" then .s ""
  else
    match parseFloat tempGrade with
    | some q => .n q
    | none => .s ""

/-- `saveGrade` (GradeTable.tsx:235-287).  On validation failure the state
is untouched; `oldValue` is read as `grades[studentId]?.[column] || ""`
(falsy coercion included); a commit whose `oldValue === newValue` under
that coercion returns without recording anything. -/
def saveGrade (st : GState) (studentId column : String) (tempGrade : String) : GState :=
  if !validateGrade tempGrade then st
  else
    let oldValue := jsOr (st.grades studentId column)
    let newValue : Val := newValOf tempGrade
    if valEq oldValue newValue then st
    else
      let st' := addToEditHistory st ⟨studentId, column, oldValue, newValue⟩
      { st' with grades := st.grades.set studentId column newValue }

/-- `handleUndo` (GradeTable.tsx:289-321).  When the cursor invariant is
broken (index ≥ length) the JavaScript code throws on destructuring
`undefined`; that unreachable-by-design branch is modelled as a no-op and
is not relied on by any claim. -/
def handleUndo (st : GState) : GState :=
  if st.currentHistoryIndex ≥ 0 then
    match st.editHistory.get? st.currentHistoryIndex.toNat with
    | some entry =>
      { st with
        grades := st.grades.set entry.studentId entry.column entry.oldValue
        currentHistoryIndex :=
          if st.currentHistoryIndex > 0 then st.currentHistoryIndex - 1 else -1 }
    | none => st
  else st

/-- `handleRedo` (GradeTable.tsx:323-357). -/
def handleRedo (st : GState) : GState :=
  if st.currentHistoryIndex < (st.editHistory.length : Int) - 1 then
    match st.editHistory.get? (st.currentHistoryIndex + 1).toNat with
    | some entry =>
      { st with
        grades := st.grades.set entry.studentId entry.column entry.newValue
        currentHistoryIndex :=
          min (st.currentHistoryIndex + 1) ((st.editHistory.length : Int) - 1) }
    | none => st
  else st

/-- `getAllGradeColumns` (GradeTable.tsx:72-78): primary plus additional
grade columns, with falsy (empty) names filtered out. -/
def getAllGradeColumns (m : HeaderMapping) : List String :=
  (m.grade :: m.gradeColumns).filter (fun c => c ≠ "")

/-- The reset loop of `jumpToHistoryPoint`: for every student and every
grade column, overwrite the cell with `student[column] || ""`. -/
def resetGrades (students : List Student) (mapping : HeaderMapping) (g : Store) : Store :=
  students.foldl
    (fun g' student =>
      let studentId := valToKey (student mapping.id)
      (getAllGradeColumns mapping).foldl
        (fun g'' column => g''.set studentId column (jsOr (student column))) g')
    g

/-- The replay loop of `jumpToHistoryPoint` (also the cumulative effect of
sequential committing): apply each entry's `newValue` in order. -/
def replay (h : List EditHistoryEntry) (g : Store) : Store :=
  h.foldl (fun g' e => g'.set e.studentId e.column e.newValue) g

/-- `jumpToHistoryPoint` (GradeTable.tsx:359-389): starting from the
current grades, reset every (student, grade-column) cell to
`student[column] || ""`, then replay `editHistory[0..index]` applying each
`newValue`, and set the cursor to `index`. -/
def jumpToHistoryPoint (students : List Student) (mapping : HeaderMapping)
    (st : GState) (index : Int) : GState :=
  let reset : Store := resetGrades students mapping st.grades
  let targetGrades : Store := replay (st.editHistory.take (index + 1).toNat) reset
  { st with grades := targetGrades, currentHistoryIndex := index }

/-- Seeding of one student's grade cells in the `initialGrades` effect
(GradeTable.tsx:81-123): `initialGrades[studentId] = {}` wipes the
student's sub-record, then the primary grade column and each additional
grade column are copied when the column name is truthy and the student's
value is not `undefined`. -/
def seedStudent (mapping : HeaderMapping) (g : Store) (student : Student) : Store :=
  let studentId := valToKey (student mapping.id)
  fun s c =>
    if s = studentId then
      if c ≠ "" ∧ c ∈ mapping.gradeColumns ∧ (student c).isSome then student c
      else if c = mapping.grade ∧ mapping.grade ≠ "" ∧ (student c).isSome then student c
      else none
    else g s c

/-- The seeded grade store (the persisted-store merge is modelled as
absent, its non-fatal fallback). -/
def initialGrades (students : List Student) (mapping : HeaderMapping) : Store :=
  students.foldl (seedStudent mapping) (fun _ _ => none)

/-- Component state right after seeding: no history, cursor `-1`. -/
def initialState (students : List Student) (mapping : HeaderMapping) : GState :=
  { grades := initialGrades students mapping
    editHistory := []
    currentHistoryIndex := -1 }

/-- A sequence of commit events, each `saveGrade(studentId, column)` with
the typed text. -/
def commitAll (st : GState) (cs : List (String × String × String)) : GState :=
  cs.foldl (fun s c => saveGrade s c.1 c.2.1 c.2.2) st

/-- An empty mapping/table session used for concrete traces: one primary
grade column `"G"`, no students seeded. -/
def emptySession : GState := initialState [] ⟨"ID", "Name", "G", []⟩

/-- The component state reached from seeding by a sequence of commits. -/
def sessionAfter (students : List Student) (mapping : HeaderMapping)
    (cs : List (String × String × String)) : GState :=
  commitAll (initialState students mapping) cs

/-- The object keys under which the students are seeded. -/
def studentKeys (students : List Student) (mapping : HeaderMapping) : List String :=
  students.map (fun st => valToKey (st mapping.id))

/-- `k` successive undo events. -/
def undoTimes (st : GState) : Nat → GState
  | 0 => st
  | k + 1 => handleUndo (undoTimes st k)

/-- The last entry of `h` that touches the cell `(sid, col)`, if any. -/
def lastTouch : List EditHistoryEntry → String → String → Option EditHistoryEntry
  | [], _, _ => none
  | e :: rest, sid, col =>
    match lastTouch rest sid col with
    | some x => some x
    | none => if sid = e.studentId ∧ col = e.column then some e else none

/-- The last student of the list seeded under key `sid`, if any. -/
def lastKeyed (mapping : HeaderMapping) : List Student → String → Option Student
  | [], _ => none
  | st :: rest, sid =>
    match lastKeyed mapping rest sid with
    | some x => some x
    | none => if sid = valToKey (st mapping.id) then some st else none

/-- The condition under which `seedStudent` copies column `col` of a
student (truthy column name in the mapping, defined value). -/
abbrev seedCond (mapping : HeaderMapping) (st : Student) (col : String) : Prop :=
  (col ≠ "" ∧ col ∈ mapping.gradeColumns ∧ (st col).isSome) ∨
    (col = mapping.grade ∧ mapping.grade ≠ "" ∧ (st col).isSome)

/-- `text` does not parse to the JavaScript number `0` (it may be empty,
non-numeric, or parse to any non-zero value). -/
def notZeroParse (text : String) : Bool :=
  match parseFloat text with
  | some (.fin q) => q.num ≠ 0
  | _ => true

/-- Invariant of states reached by sequential commits with no undo and no
eviction: the cursor sits at the end, every entry targets a seeded
student / mapped grade column and records a truthy-or-empty new value,
the store is the replay of the history over the seeded store, and every
entry's recorded `oldValue` is the value the replay of the preceding
entries gives its cell. -/
structure SeqInv (students : List Student) (mapping : HeaderMapping) (S : GState) : Prop where
  cursor : S.currentHistoryIndex = (S.editHistory.length : Int) - 1
  entries : ∀ e ∈ S.editHistory,
    (e.studentId ∈ studentKeys students mapping ∧ e.column ∈ getAllGradeColumns mapping) ∧
      (e.newValue.truthy ∨ e.newValue = .s "")
  grades_eq : ∀ sid col,
    S.grades sid col = replay S.editHistory (initialGrades students mapping) sid col
  old_ok : ∀ j, (hj : j < S.editHistory.length) →
    replay (S.editHistory.take j) (initialGrades students mapping)
        (S.editHistory.get ⟨j, hj⟩).studentId (S.editHistory.get ⟨j, hj⟩).column
      = some (S.editHistory.get ⟨j, hj⟩).oldValue

/-- Fifty-one value-changing commits, each to a fresh cell. -/
def fiftyOneCommits : List (String × String × String) :=
  (List.range 51).map (fun i => ("s" ++ toString i, "G", "1"))

/-- A two-grade-column mapping used in the C2 scenarios. -/
def cexMapping : HeaderMapping := ⟨"ID", "Name", "G1", ["G2"]⟩

/-- A student whose original primary-grade value is the (falsy) number 0. -/
def cexStudentZero : Student := fun c =>
  if c = "ID" then some (.s "s1")
  else if c = "Name" then some (.s "Ali")
  else if c = "G1" then some (.n (.fin ⟨0, 1⟩))
  else if c = "G2" then some (.n (.fin ⟨5, 1⟩))
  else none

/-- The same student with a truthy original primary-grade value. -/
def cexStudentOne : Student := fun c =>
  if c = "ID" then some (.s "s1")
  else if c = "Name" then some (.s "Ali")
  else if c = "G1" then some (.n (.fin ⟨1, 1⟩))
  else if c = "G2" then some (.n (.fin ⟨5, 1⟩))
  else none

/-! ## The structure-inference engine (`src/utils/excelParser.ts`) -/

/-- The identifier pattern alternation of `detectHeaders`:
`/id|رقم|كود|رقم الجلوس|код|编号|número/i`, applied to the already
lower-cased header. -/
def idMatch (s : String) : Bool :=
  ["id", "رقم", "كود", "رقم الجلوس", "код", "编号", "número"].any (fun p => strContains s p)

/-- The name pattern alternation of `detectHeaders`:
`/name|اسم|الطالب|student|طالب|имя|姓名|nombre/i`. -/
def nameMatch (s : String) : Bool :=
  ["name", "اسم", "الطالب", "student", "طالب", "имя", "姓名", "nombre"].any
    (fun p => strContains s p)

/-- The grade pattern alternation of `detectHeaders`:
`/grade|final|mark|درجة|total|مجموع|نتيجة|оценка|成绩|calificación|quiz|exam|test|امتحان|اختبار/i`. -/
def gradeMatch (s : String) : Bool :=
  ["grade", "final", "mark", "درجة", "total", "مجموع", "نتيجة", "оценка", "成绩",
    "calificación", "quiz", "exam", "test", "امتحان", "اختبار"].any (fun p => strContains s p)

/-- `/^\d+$/.test(header)`: a non-empty all-digit header. -/
def isAllDigits (s : String) : Bool :=
  !s.data.isEmpty && s.data.all isDigit

/-- `/[أ-ي]/.test(header)`: contains a character in the Arabic letter
range `أ`..`ي`. -/
def hasArabicChar (s : String) : Bool :=
  s.data.any (fun c => 'أ' ≤ c ∧ c ≤ 'ي')

/-- One step of the first pass of `detectHeaders`: first header matching
the identifier patterns becomes `id`, first distinct header matching the
name patterns becomes `name`; first-match-wins. -/
def detectPass1Step (mapping : HeaderMapping) (header : String) : HeaderMapping :=
  let headerLower := jsToLower header
  if idMatch headerLower ∧ mapping.id = "" then { mapping with id := header }
  else if nameMatch headerLower ∧ mapping.name = "" then { mapping with name := header }
  else mapping

/-- First pass of `detectHeaders` (excelParser lines 1277-1291). -/
def detectPass1 (headers : List String) : HeaderMapping :=
  headers.foldl detectPass1Step ⟨"", "", "", []⟩

/-- Second pass of `detectHeaders` (excelParser lines 1293-1316): collect
the headers matching the grade patterns, skipping the id and name
columns; the first becomes `grade`, the rest `gradeColumns`. -/
def detectGradePass (headers : List String) (mapping : HeaderMapping) : HeaderMapping :=
  let potentialGradeColumns := headers.filter
    (fun header => header ≠ mapping.id ∧ header ≠ mapping.name ∧
      gradeMatch (jsToLower header))
  match potentialGradeColumns with
  | [] => mapping
  | g :: rest => { mapping with grade := g, gradeColumns := rest }

/-- Identifier content fallback (excelParser lines 1321-1328): first
all-digit or `__EMPTY`-marked header. -/
def detectIdFallback (headers : List String) (mapping : HeaderMapping) : HeaderMapping :=
  if mapping.id = "" then
    match headers.find? (fun h => isAllDigits h || strContains h "__EMPTY") with
    | some h => { mapping with id := h }
    | none => mapping
  else mapping

/-- Name content fallback (excelParser lines 1331-1338): first header
containing an Arabic letter. -/
def detectNameFallback (headers : List String) (mapping : HeaderMapping) : HeaderMapping :=
  if mapping.name = "" then
    match headers.find? (fun h => hasArabicChar h) with
    | some h => { mapping with name := h }
    | none => mapping
  else mapping

/-- Positional id/name fallback (excelParser lines 1341-1344). -/
def detectPositionalFallback (headers : List String) (mapping : HeaderMapping) : HeaderMapping :=
  if (mapping.id = "" ∨ mapping.name = "") ∧ headers.length ≥ 2 then
    match headers with
    | h0 :: h1 :: _ =>
      let m' := if mapping.id = "" then { mapping with id := h0 } else mapping
      if m'.name = "" then { m' with name := h1 } else m'
    | _ => mapping
  else mapping

/-- Positional grade fallback (excelParser lines 1347-1356): third header
as primary grade, the remainder (minus id/name) as additional columns. -/
def detectGradeFallback (headers : List String) (mapping : HeaderMapping) : HeaderMapping :=
  if mapping.grade = "" ∧ headers.length ≥ 3 then
    match headers with
    | _ :: _ :: h2 :: rest =>
      { mapping with
        grade := h2
        gradeColumns :=
          if rest.length > 0 then
            rest.filter (fun h => h ≠ mapping.id ∧ h ≠ mapping.name)
          else mapping.gradeColumns }
    | _ => mapping
  else mapping

/-- `detectHeaders` (excelParser lines 1263-1360): pattern passes for
id/name and grade columns, then — when any headers exist — content
fallbacks (numeric or `__EMPTY` header for id, Arabic letters for name),
then positional fallbacks. -/
def detectHeaders (headers : List String) : HeaderMapping :=
  let mapping2 := detectGradePass headers (detectPass1 headers)
  if headers.length > 0 then
    detectGradeFallback headers
      (detectPositionalFallback headers
        (detectNameFallback headers (detectIdFallback headers mapping2)))
  else mapping2

/-- `l` contains `p1` followed — possibly with a gap — by `p2`
(the `p1.*p2` regex alternatives of the enhanced patterns). -/
def subSeq2 (p1 p2 : List Char) : List Char → Bool
  | [] => p1.isEmpty && p2.isEmpty
  | c :: t => (p1.isPrefixOf (c :: t) && subList p2 ((c :: t).drop p1.length)) || subSeq2 p1 p2 t

/-- `s` matches the regex `p1.*p2`. -/
def strContainsSeq (s p1 p2 : String) : Bool :=
  subSeq2 p1.data p2.data s.data

/-- The identifier patterns of `enhanceHeaderMappingForEmptySheet`:
`/id|رقم|كود|رقم الجلوس|код|编号|número|student.*id|طالب.*رقم/i`. -/
def enhIdMatch (s : String) : Bool :=
  ["id", "رقم", "كود", "رقم الجلوس", "код", "编号", "número"].any (fun p => strContains s p)
    || strContainsSeq s "student" "id" || strContainsSeq s "طالب" "رقم"

/-- The name patterns of `enhanceHeaderMappingForEmptySheet`:
`/name|اسم|الطالب|student|طالب|имя|姓名|nombre|اسم.*طالب|طالب.*اسم/i`. -/
def enhNameMatch (s : String) : Bool :=
  ["name", "اسم", "الطالب", "student", "طالب", "имя", "姓名", "nombre"].any
      (fun p => strContains s p)
    || strContainsSeq s "اسم" "طالب" || strContainsSeq s "طالب" "اسم"

/-- The grade patterns of `enhanceHeaderMappingForEmptySheet`. -/
def enhGradeMatch (s : String) : Bool :=
  ["grade", "final", "mark", "درجة", "total", "مجموع", "نتيجة", "оценка", "成绩",
      "calificación", "quiz", "exam", "test", "امتحان", "اختبار"].any
      (fun p => strContains s p)
    || strContainsSeq s "درجة" "امتحان" || strContainsSeq s "امتحان" "درجة"

/-- The pattern pass of `enhanceHeaderMappingForEmptySheet` (excelParser
lines 955-974): an if / else-if chain per header, pushing extra
grade-matching headers onto `gradeColumns`. -/
def enhancePassStep (m : HeaderMapping) (header : String) : HeaderMapping :=
  let headerLower := jsToLower header
  if enhIdMatch headerLower ∧ m.id = "" then { m with id := header }
  else if enhNameMatch headerLower ∧ m.name = "" then { m with name := header }
  else if enhGradeMatch headerLower then
    (if m.grade = "" then { m with grade := header }
     else { m with gradeColumns := m.gradeColumns ++ [header] })
  else m

def enhancePass (emptySheetHeaders : List String) : HeaderMapping :=
  emptySheetHeaders.foldl enhancePassStep ⟨"", "", "", []⟩

/-- `enhanceHeaderMappingForEmptySheet` (excelParser lines 936-995). -/
def enhanceHeaderMappingForEmptySheet (emptySheetHeaders : List String)
    (globalPatterns : Option HeaderMapping) : Option HeaderMapping :=
  if globalPatterns = none ∨ emptySheetHeaders = [] then none
  else
    let enhancedMapping := enhancePass emptySheetHeaders
    let finalMapping :=
      if enhancedMapping.id = "" ∧ enhancedMapping.name = "" ∧ enhancedMapping.grade = "" then
        match emptySheetHeaders with
        | h0 :: h1 :: rest0 =>
          let m1 := { enhancedMapping with id := h0, name := h1 }
          match rest0 with
          | h2 :: rest =>
            let m2 := { m1 with grade := h2 }
            if rest.length > 0 then { m2 with gradeColumns := rest } else m2
          | [] => m1
        | _ => enhancedMapping
      else enhancedMapping
    some finalMapping

/-! ## Grid scanning (`extractSheetHeaders` / `processArabicExcelSheet`)

A worksheet is modelled as a row-major list of rows of optional cell
values (`none` = absent/undefined/null cell), with the range origin at
A1; a row shorter than the sheet range stands for trailing absent cells. -/

abbrev Grid := List (List (Option Val))

/-- The Arabic header keyword list of `extractSheetHeaders`
(excelParser lines 1011-1015). -/
def arabicHeaderPatterns : List String :=
  ["رقم الجلوس", "اسم الطالب", "كود الطالب", "رقم الطالب",
   "اسم", "رقم", "كود", "طالب", "درجة", "امتحان", "نتيجة", "مجموع",
   "اختبار", "م", "ت", "المجموع", "النهائي", "الدرجة"]

/-- Row processing of `extractSheetHeaders` (lines 1022-1054): collect the
trimmed cell texts (synthesising `Column N` for blank cells), count the
cells containing an Arabic header keyword, and record whether the row has
any content. -/
def processHeaderRow (row : List (Option Val)) : List String × Nat × Bool :=
  row.enum.foldl
    (fun acc cell =>
      let rowHeaders := acc.1
      let arabicMatchCount := acc.2.1
      let hasContent := acc.2.2
      match cell.2 with
      | some v =>
        let cellValue := jsTrim (valToString v)
        if cellValue ≠ "" then
          let hasArabicPattern := arabicHeaderPatterns.any (fun pattern =>
            strContains (jsToLower cellValue) (jsToLower pattern) ||
              strContains cellValue pattern)
          (rowHeaders ++ [cellValue],
            (if hasArabicPattern then arabicMatchCount + 1 else arabicMatchCount),
            true)
        else (rowHeaders ++ ["Column " ++ toString (cell.1 + 1)], arabicMatchCount, hasContent)
      | none => (rowHeaders ++ ["Column " ++ toString (cell.1 + 1)], arabicMatchCount, hasContent))
    ([], 0, false)

/-- The Arabic-keyword match count of a row. -/
def rowMatchCount (row : List (Option Val)) : Nat :=
  (processHeaderRow row).2.1

/-- One step of the header-row scan (lines 1057-1061): a row strictly
beating the best match count so far (and nonzero, with content) becomes
the new best. -/
def headerRowScanStep (best : Int × List String × Nat) (row : Nat × List (Option Val)) :
    Int × List String × Nat :=
  let headerRowIndex := best.1
  let bestHeaderRow := best.2.1
  let bestMatchCount := best.2.2
  let processed := processHeaderRow row.2
  let rowHeaders := processed.1
  let arabicMatchCount := processed.2.1
  let hasContent := processed.2.2
  if hasContent ∧ arabicMatchCount > 0 ∧ arabicMatchCount > bestMatchCount then
    ((row.1 : Int), rowHeaders, arabicMatchCount)
  else (headerRowIndex, bestHeaderRow, bestMatchCount)

/-- The header-row scan of `extractSheetHeaders` (lines 1017-1062):
running best over all rows, initial state `(-1, [], 0)`. -/
def headerRowScan (grid : Grid) : Int × List String × Nat :=
  grid.enum.foldl headerRowScanStep (-1, [], 0)

/-- `extractSheetHeaders` (excelParser lines 1000-1092): the best header
row when one was found, otherwise the first row's labels (an empty grid —
the degenerate-range early return — yields no labels). -/
def extractSheetHeaders (grid : Grid) : List String :=
  let scanned := headerRowScan grid
  if scanned.1 ≥ 0 ∧ scanned.2.1 ≠ [] then scanned.2.1
  else
    match grid with
    | [] => []
    | firstRow :: _ => (processHeaderRow firstRow).1

/-- A concrete grid for the C5 witness: match counts 0, 2, 1 — the scan
must select row 1. -/
def cexGrid : Grid :=
  [[some (.s "x")],
   [some (.s "اسم"), some (.s "رقم")],
   [some (.s "اسم")]]

/-- All assigned column names of a mapping are drawn from the given
header list (unassigned slots are the empty string). -/
def MapsInto (headers : List String) (m : HeaderMapping) : Prop :=
  (m.id = "" ∨ m.id ∈ headers) ∧ (m.name = "" ∨ m.name ∈ headers) ∧
    (m.grade = "" ∨ m.grade ∈ headers) ∧ (∀ c ∈ m.gradeColumns, c ∈ headers)

/-- Invariant of the enhanced-mapping pattern pass relative to the
processed prefix: fields come from the prefix, the additional grade
columns are duplicate-free, non-empty, disjoint from the other three
slots, and empty while no primary grade is set. -/
def EnhInv (processed : List String) (m : HeaderMapping) : Prop :=
  (m.id = "" ∨ m.id ∈ processed) ∧ (m.name = "" ∨ m.name ∈ processed) ∧
    (m.grade = "" ∨ m.grade ∈ processed) ∧ (∀ c ∈ m.gradeColumns, c ∈ processed) ∧
    m.gradeColumns.Nodup ∧ m.id ∉ m.gradeColumns ∧ m.name ∉ m.gradeColumns ∧
    m.grade ∉ m.gradeColumns ∧ (∀ c ∈ m.gradeColumns, c ≠ "") ∧
    (m.grade = "" → m.gradeColumns = [])

/-! ## `processArabicExcelSheet` and the raw-export fallback -/

/-- A processed data row: a JavaScript record as an ordered list of
(column label, value) pairs. -/
abbrev Row := List (String × Val)

/-- The cell of `grid` at row `r`, column `c` (`none` beyond the range,
as `worksheet[address]` is `undefined` there). -/
def cellAt (grid : Grid) (r c : Nat) : Option Val :=
  (grid.getD r []).getD c none

/-- The sheet's column count (`range.e.c + 1`): the widest row. -/
def gridCols (grid : Grid) : Nat :=
  grid.foldl (fun m r => max m r.length) 0

/-- One row of the first header scan of `processArabicExcelSheet`
(excelParser lines 1112-1133): over the truthy cells in column order,
a cell whose lower-cased text contains the student-name keywords sets
the name column, and one containing the id keywords sets the id column;
either sets `hasHeaderInfo`.  State: (found, idColumn, nameColumn). -/
def scan1Row (row : List (Option Val)) (ic nc : Int) : Bool × Int × Int :=
  row.enum.foldl
    (fun acc cell =>
      match cell.2 with
      | some v =>
        if v.truthy then
          let value := jsToLower (valToString v)
          let acc1 :=
            if strContains value "اسم الطالب" || strContains value "اسم طالب" then
              (true, acc.2.1, (cell.1 : Int))
            else acc
          if strContains value "رقم" || strContains value "كود الطالب" ||
              strContains value "رقم الجلوس" then
            (true, (cell.1 : Int), acc1.2.2)
          else acc1
        else acc
      | none => acc)
    (false, ic, nc)

/-- The first scan's row loop (lines 1108-1139): stop at the first row
with header info, recording it as the header row. -/
def scan1Go : List (Nat × List (Option Val)) → Int → Int → Int × Int × Int
  | [], ic, nc => (-1, ic, nc)
  | (r, row) :: rest, ic, nc =>
    let res := scan1Row row ic nc
    if res.1 then ((r : Int), res.2.1, res.2.2)
    else scan1Go rest res.2.1 res.2.2

/-- `cell && typeof cell.v === "number" && cell.v > 1000` (line 1149). -/
def isBigNumber : Option Val → Bool
  | some (.n (.fin q)) => Q.ltb ⟨1000, 1⟩ q
  | some (.n (.inf b)) => b
  | _ => false

/-- `nameCell && typeof nameCell.v === "string" && nameCell.v.includes(" ")`
(lines 1155-1159). -/
def isSpacedString : Option Val → Bool
  | some (.s str) => strContains str " "
  | _ => false

/-- The second scan's column loop (lines 1145-1166): the first column
holding a number above 1000 whose next cell is a string with a space. -/
def scan2RowGo : Nat → List (Option Val) → Option Nat
  | _, [] => none
  | c, cell :: rest =>
    if isBigNumber cell && isSpacedString (match rest with | [] => none | x :: _ => x) then
      some c
    else scan2RowGo (c + 1) rest

def scan2Row (row : List (Option Val)) : Option Nat :=
  scan2RowGo 0 row

/-- The second scan's row loop (lines 1141-1170): a matching row sets
(id, name) columns and header row `R - 1`; the loop exits once the
header-row index is non-negative (a match at row 0 yields `-1` and the
loop continues, keeping the column assignments). -/
def scan2Go : List (Nat × List (Option Val)) → Int × Int × Int → Int × Int × Int
  | [], st => st
  | (r, row) :: rest, st =>
    let st' :=
      match scan2Row row with
      | some c => ((r : Int) - 1, (c : Int), ((c + 1 : Nat) : Int))
      | none => st
    if st'.1 ≥ 0 then st' else scan2Go rest st'

/-- Both header-locating scans of `processArabicExcelSheet` in sequence:
the keyword scan, then — only if it found no header row — the
numeric/content-shape scan.  Result: (headerRowIndex,
studentIdColumnIndex, studentNameColumnIndex), all `-1`-initialised. -/
def fullScan (grid : Grid) : Int × Int × Int :=
  let s1 := scan1Go grid.enum (-1) (-1)
  if s1.1 < 0 then scan2Go grid.enum s1 else s1

/-- Modelled from the xlsx library (an external dependency): the default
`XLSX.utils.sheet_to_json` export — the first row's cells become the
column labels, each later row becomes one record pairing each label with
the cell below it (absent cells and unlabelled columns are skipped), and
rows yielding an empty record are omitted. -/
def sheetToJson (grid : Grid) : List Row :=
  match grid with
  | [] => []
  | hdrRow :: dataRows =>
    let labels : List (Option String) := hdrRow.map (Option.map valToString)
    (dataRows.map (fun row =>
      (labels.zip row).foldl
        (fun acc lc =>
          match lc with
          | (some l, some v) => acc ++ [(l, v)]
          | _ => acc)
        ([] : Row))).filter (fun r0 => r0 ≠ [])

/-- The raw-data passthrough of the fallback branch (lines 1186-1193):
`for (const key in row) processed[key] = row[key]` rebuilds the record
key by key in order. -/
def copyRow (row : Row) : Row :=
  row.foldl (fun acc kv => acc ++ [kv]) []

/-- The header labels extracted from the found header row (lines
1199-1208): truthy cells only, keyed by column. -/
def headerLabel (grid : Grid) (hri c : Nat) : Option String :=
  match cellAt grid hri c with
  | some v => if v.truthy then some (valToString v) else none
  | none => none

/-- JavaScript object-key assignment on a record: overwrite in place if
the key exists, else append. -/
def objSet (row : Row) (k : String) (v : Val) : Row :=
  if row.any (fun kv => kv.1 = k) then
    row.map (fun kv => if kv.1 = k then (k, v) else kv)
  else row ++ [(k, v)]

/-- The student-extraction loop of the success branch (lines 1211-1249):
rows after the header row with both id and name cells present become
records over the labelled columns (absent values as `""`); empty records
are dropped. -/
def studentRows (grid : Grid) (hri idc nc : Nat) : List Row :=
  ((List.range grid.length).drop (hri + 1)).foldl
    (fun acc R =>
      if (cellAt grid R idc).isSome ∧ (cellAt grid R nc).isSome then
        let student := (List.range (gridCols grid)).foldl
          (fun st c =>
            match headerLabel grid hri c with
            | some l =>
              match cellAt grid R c with
              | some v => objSet st l v
              | none => objSet st l (.s "")
            | none => st)
          ([] : Row)
        if student.length > 0 then acc ++ [student] else acc
      else acc)
    []

/-- `processArabicExcelSheet` (excelParser lines 1098-1258): when either
scan leaves the header row or a column unlocated, fall back to the raw
`sheet_to_json` export copied record by record; otherwise extract
student rows under the found header row. -/
def processArabicExcelSheet (grid : Grid) : List Row :=
  let s := fullScan grid
  if s.1 < 0 ∨ s.2.1 < 0 ∨ s.2.2 < 0 then
    let rawData := sheetToJson grid
    if rawData.length > 0 then rawData.map copyRow else []
  else studentRows grid s.1.toNat s.2.1.toNat s.2.2.toNat

/-- A grid with no Arabic student keywords and no id-number/name pair:
both scans fail on it. -/
def cexGrid9 : Grid :=
  [[some (.s "a"), some (.s "b")],
   [some (.s "c d"), some (.s "e")],
   [none, some (.s "f")]]

/-! ## `parseExcelFile` -/

/-- The rejection reasons of `parseExcelFile` (each a distinct
`reject(new Error(...))`): empty file, extension outside the allow-list,
`XLSX.read` failure (corrupt/unsupported container), and a workbook with
no sheets. -/
inductive ParseError where
  | emptyFile : ParseError
  | invalidFormat : ParseError
  | parseFailed : ParseError
  | noSheets : ParseError
deriving DecidableEq

/-- A worksheet as surfaced to the UI (types/index.ts `Sheet`, plus the
`enhancedMapping` attached dynamically by the third pass). -/
structure Sheet where
  name : String
  data : List Row
  headers : List String
  enhancedMapping : Option HeaderMapping := none

/-- The resolved value of `parseExcelFile` (types/index.ts
`ProcessedExcelData`). -/
structure ProcessedExcelData where
  sheets : List Sheet
  currentSheet : Option Sheet
  headers : List String
  mapping : HeaderMapping

/-- An uploaded file: name, byte size, and the workbook `XLSX.read`
would produce from its bytes (`none` when the read throws on a corrupt
or unsupported container; sheets in `SheetNames` order). -/
structure ExcelFile where
  name : String
  size : Nat
  workbook : Option (List (String × Grid))

/-- `String.prototype.split(".")` over the character list (the core
`String.splitOn` does not reduce in the kernel). -/
def splitOnDotGo : List Char → List Char → List String
  | [], cur => [String.mk cur.reverse]
  | c :: rest, cur =>
    if c = '.' then String.mk cur.reverse :: splitOnDotGo rest []
    else splitOnDotGo rest (c :: cur)

def splitOnDot (s : String) : List String :=
  splitOnDotGo s.data []

/-- `file.name.split(".").pop()?.toLowerCase()` (line 815): the segment
after the last dot, lower-cased (`split` always yields at least one
segment, so `pop` never returns `undefined`). -/
def fileExtension (name : String) : String :=
  jsToLower (((splitOnDot name).getLast?).getD "")

/-- `parseExcelFile` (excelParser lines 802-931).  The promise is an
`Except`: `error` is `reject` (no sheets and no partial state escape),
`ok` is `resolve`.  The third pass's in-place mutation of the shared
sheet objects is modelled by rebuilding the list and re-reading
`currentSheet` from it (the enhancement never changes `data`, so the
non-empty filter is unaffected). -/
def parseExcelFile (file : ExcelFile) : Except ParseError ProcessedExcelData :=
  if file.size ≤ 0 then .error .emptyFile
  else if fileExtension file.name ≠ "xlsx" ∧ fileExtension file.name ≠ "xls" then
    .error .invalidFormat
  else
    match file.workbook with
    | none => .error .parseFailed
    | some wb =>
      if wb.length = 0 then .error .noSheets
      else
        let sheets : List Sheet := wb.map (fun p =>
          { name := p.1, data := processArabicExcelSheet p.2,
            headers := extractSheetHeaders p.2 })
        let nonEmptySheets := sheets.filter (fun sh => sh.data.length > 0)
        let globalHeaderPatterns : Option HeaderMapping :=
          match nonEmptySheets with
          | [] => none
          | ref :: _ => some (detectHeaders ((ref.data.headD []).map Prod.fst))
        let sheets2 := sheets.map (fun sh =>
          if sh.data.length = 0 ∧ sh.headers.length > 0 then
            match enhanceHeaderMappingForEmptySheet sh.headers globalHeaderPatterns with
            | some em => { sh with enhancedMapping := some em }
            | none => sh
          else sh)
        let currentSheet : Option Sheet :=
          match sheets2.filter (fun sh => sh.data.length > 0) with
          | [] => sheets2.head?
          | ne :: _ => some ne
        let headers : List String :=
          match currentSheet with
          | some cs =>
            if cs.data.length > 0 then (cs.data.headD []).map Prod.fst else cs.headers
          | none => []
        let mapping : HeaderMapping :=
          match currentSheet with
          | some cs =>
            match cs.enhancedMapping with
            | some em => if cs.data.length = 0 then em else detectHeaders headers
            | none => detectHeaders headers
          | none => detectHeaders headers
        .ok { sheets := sheets2, currentSheet := currentSheet,
              headers := headers, mapping := mapping }

/-- Whether ingestion rejected. -/
def isParseError (r : Except ParseError ProcessedExcelData) : Bool :=
  match r with
  | .error _ => true
  | .ok _ => false

/-- Scenario D's input: a zero-byte file with a well-formed name and a
readable (even non-empty) container. -/
def cexFile : ExcelFile :=
  ⟨"grades.xlsx", 0, some [("Sheet1", [[some (.s "x")]])]⟩

/-! ## Theorems -/

/-! ### Store-lookup lemmas for the C2 replay equivalence -/

theorem Store.set_lookup (g : Store) (sid col : String) (v : Val) (s c : String) :
    g.set sid col v s c = if s = sid ∧ c = col then some v else g s c := rfl

theorem replay_nil (g : Store) : replay [] g = g := rfl

theorem replay_cons (e : EditHistoryEntry) (h : List EditHistoryEntry) (g : Store) :
    replay (e :: h) g = replay h (g.set e.studentId e.column e.newValue) := rfl

theorem replay_append (h₁ h₂ : List EditHistoryEntry) (g : Store) :
    replay (h₁ ++ h₂) g = replay h₂ (replay h₁ g) := by
  simp [replay, List.foldl_append]

/-- A replayed store, pointwise: the newest touching entry wins, otherwise
the base store shows through. -/
theorem replay_lookup (h : List EditHistoryEntry) (g : Store) (sid col : String) :
    replay h g sid col =
      match lastTouch h sid col with
      | some e => some e.newValue
      | none => g sid col := by
  induction h generalizing g with
  | nil => rfl
  | cons e rest ih =>
    rw [replay_cons, ih]
    cases hl : lastTouch rest sid col with
    | some x => simp [lastTouch, hl]
    | none =>
      simp only [lastTouch, hl, Store.set_lookup]
      by_cases hc : sid = e.studentId ∧ col = e.column <;> simp [hc]

theorem lastTouch_spec (h : List EditHistoryEntry) (sid col : String)
    (e : EditHistoryEntry) (he : lastTouch h sid col = some e) :
    e ∈ h ∧ e.studentId = sid ∧ e.column = col := by
  induction h with
  | nil => simp [lastTouch] at he
  | cons x rest ih =>
    simp only [lastTouch] at he
    cases hl : lastTouch rest sid col with
    | some y =>
      rw [hl] at he
      obtain ⟨hy, hs, hc⟩ := ih (hl.trans (by injection he with h'; rw [h']))
      exact ⟨List.mem_cons_of_mem _ hy, hs, hc⟩
    | none =>
      rw [hl] at he
      by_cases hc : sid = x.studentId ∧ col = x.column
      · simp [hc] at he
        exact ⟨by simp [← he], by simp [← he, hc.1], by simp [← he, hc.2]⟩
      · simp [hc] at he

/-- Two stores that agree pointwise replay to stores that agree pointwise. -/
theorem replay_congr (h : List EditHistoryEntry) (g₁ g₂ : Store)
    (hg : ∀ sid col, g₁ sid col = g₂ sid col) (sid col : String) :
    replay h g₁ sid col = replay h g₂ sid col := by
  rw [replay_lookup, replay_lookup]
  cases lastTouch h sid col <;> simp [hg]

/-! ### Seed / reset lookup lemmas -/

theorem setAll_lookup (cols : List String) (g : Store) (key : String) (st : Student)
    (sid col : String) :
    (cols.foldl (fun g' column => g'.set key column (jsOr (st column))) g) sid col
      = if sid = key ∧ col ∈ cols then some (jsOr (st col)) else g sid col := by
  induction cols generalizing g with
  | nil => simp
  | cons c rest ih =>
    rw [List.foldl_cons, ih]
    by_cases h1 : sid = key
    · by_cases h2 : col ∈ rest
      · simp [h1, h2]
      · by_cases h3 : col = c
        · simp [h1, h2, h3, Store.set_lookup]
        · simp [h1, h2, h3, Store.set_lookup]
    · simp [h1, Store.set_lookup]

theorem resetGrades_lookup (students : List Student) (mapping : HeaderMapping)
    (g : Store) (sid col : String) :
    resetGrades students mapping g sid col =
      match lastKeyed mapping students sid with
      | some st =>
        if col ∈ getAllGradeColumns mapping then some (jsOr (st col)) else g sid col
      | none => g sid col := by
  induction students generalizing g with
  | nil => rfl
  | cons st rest ih =>
    show resetGrades rest mapping _ sid col = _
    rw [ih]
    cases hl : lastKeyed mapping rest sid with
    | some x =>
      simp only [lastKeyed, hl]
      by_cases h2 : col ∈ getAllGradeColumns mapping <;> simp [h2, setAll_lookup]
    | none =>
      simp only [lastKeyed, hl, setAll_lookup]
      by_cases h1 : sid = valToKey (st mapping.id)
      · by_cases h2 : col ∈ getAllGradeColumns mapping <;> simp [h1, h2]
      · simp [h1]

theorem seedStudent_lookup (mapping : HeaderMapping) (g : Store) (st : Student)
    (sid col : String) :
    seedStudent mapping g st sid col =
      if sid = valToKey (st mapping.id) then
        (if seedCond mapping st col then st col else none)
      else g sid col := by
  unfold seedStudent
  by_cases h1 : sid = valToKey (st mapping.id)
  · rw [if_pos h1, if_pos h1]
    by_cases c1 : col ≠ "" ∧ col ∈ mapping.gradeColumns ∧ (st col).isSome
    · rw [if_pos c1, if_pos (Or.inl c1)]
    · rw [if_neg c1]
      by_cases c2 : col = mapping.grade ∧ mapping.grade ≠ "" ∧ (st col).isSome
      · rw [if_pos c2, if_pos (Or.inr c2)]
      · rw [if_neg c2, if_neg (by tauto)]
  · rw [if_neg h1, if_neg h1]

theorem seedFold_lookup (mapping : HeaderMapping) (l : List Student) (g : Store)
    (sid col : String) :
    l.foldl (seedStudent mapping) g sid col =
      match lastKeyed mapping l sid with
      | some st => if seedCond mapping st col then st col else none
      | none => g sid col := by
  induction l generalizing g with
  | nil => rfl
  | cons st rest ih =>
    show rest.foldl (seedStudent mapping) (seedStudent mapping g st) sid col = _
    rw [ih]
    cases hl : lastKeyed mapping rest sid with
    | some x => simp [lastKeyed, hl]
    | none =>
      simp only [lastKeyed, hl, seedStudent_lookup]
      by_cases h1 : sid = valToKey (st mapping.id) <;> simp [h1]

theorem initialGrades_lookup (students : List Student) (mapping : HeaderMapping)
    (sid col : String) :
    initialGrades students mapping sid col =
      match lastKeyed mapping students sid with
      | some st => if seedCond mapping st col then st col else none
      | none => none := by
  rw [initialGrades, seedFold_lookup]

theorem lastKeyed_mem (mapping : HeaderMapping) (l : List Student) (sid : String)
    (st : Student) (h : lastKeyed mapping l sid = some st) : st ∈ l := by
  induction l with
  | nil => simp [lastKeyed] at h
  | cons x rest ih =>
    simp only [lastKeyed] at h
    cases hl : lastKeyed mapping rest sid with
    | some y =>
      rw [hl] at h
      exact List.mem_cons_of_mem _ (ih (hl.trans (by injection h with h'; rw [h'])))
    | none =>
      rw [hl] at h
      by_cases hc : sid = valToKey (x mapping.id)
      · simp only [if_pos hc] at h
        injection h with h'
        simp [← h']
      · simp [hc] at h

theorem lastKeyed_key (mapping : HeaderMapping) (l : List Student) (sid : String)
    (st : Student) (h : lastKeyed mapping l sid = some st) :
    sid = valToKey (st mapping.id) := by
  induction l with
  | nil => simp [lastKeyed] at h
  | cons x rest ih =>
    simp only [lastKeyed] at h
    cases hl : lastKeyed mapping rest sid with
    | some y =>
      rw [hl] at h
      exact ih (hl.trans (by injection h with h'; rw [h']))
    | none =>
      rw [hl] at h
      by_cases hc : sid = valToKey (x mapping.id)
      · simp only [if_pos hc] at h
        injection h with h'
        rw [← h']; exact hc
      · simp [hc] at h

theorem mem_studentKeys_iff (students : List Student) (mapping : HeaderMapping)
    (sid : String) :
    sid ∈ studentKeys students mapping ↔ ∃ st, lastKeyed mapping students sid = some st := by
  induction students with
  | nil => simp [studentKeys, lastKeyed]
  | cons x rest ih =>
    simp only [studentKeys, List.map_cons, List.mem_cons, lastKeyed] at *
    cases hl : lastKeyed mapping rest sid with
    | some y => simpa [hl] using Or.inr (ih.2 ⟨y, hl⟩)
    | none =>
      rw [hl] at ih
      constructor
      · rintro (h | h)
        · exact ⟨x, by simp [h]⟩
        · obtain ⟨st, hst⟩ := ih.1 h
          simp at hst
      · rintro ⟨st, hst⟩
        by_cases hc : sid = valToKey (x mapping.id)
        · exact Or.inl hc
        · simp [hc] at hst

theorem mem_getAllGradeColumns (m : HeaderMapping) (col : String) :
    col ∈ getAllGradeColumns m ↔ (col ≠ "" ∧ (col = m.grade ∨ col ∈ m.gradeColumns)) := by
  simp [getAllGradeColumns, List.mem_filter]
  tauto

theorem seedCond_of_defined (mapping : HeaderMapping) (st : Student) (col : String)
    (hcol : col ∈ getAllGradeColumns mapping) (hdef : (st col).isSome) :
    seedCond mapping st col := by
  obtain ⟨hne, hmem⟩ := (mem_getAllGradeColumns mapping col).1 hcol
  cases hmem with
  | inl h => exact Or.inr ⟨h, h ▸ hne, hdef⟩
  | inr h => exact Or.inl ⟨hne, h, hdef⟩

theorem seedCond_mem_allCols (mapping : HeaderMapping) (st : Student) (col : String)
    (h : seedCond mapping st col) : col ∈ getAllGradeColumns mapping := by
  rw [mem_getAllGradeColumns]
  rcases h with ⟨hne, hmem, _⟩ | ⟨heq, hne, _⟩
  · exact ⟨hne, Or.inr hmem⟩
  · exact ⟨heq ▸ hne, Or.inl heq⟩

theorem jsOr_good (v : Val) (h : v.truthy ∨ v = .s "") : jsOr (some v) = v := by
  cases h with
  | inl h => simp [jsOr, h]
  | inr h => simp [jsOr, h, Val.truthy]

/-- Under the truthy-originals hypothesis, an allowed cell of the seeded
store holds a defined truthy value. -/
theorem seed_allowed (students : List Student) (mapping : HeaderMapping)
    (horig : ∀ st ∈ students, ∀ c ∈ getAllGradeColumns mapping, optTruthy (st c) = true)
    (sid col : String) (hsid : sid ∈ studentKeys students mapping)
    (hcol : col ∈ getAllGradeColumns mapping) :
    ∃ v, initialGrades students mapping sid col = some v ∧ v.truthy := by
  obtain ⟨st, hst⟩ := (mem_studentKeys_iff students mapping sid).1 hsid
  have hmem := lastKeyed_mem mapping students sid st hst
  have htr := horig st hmem col hcol
  cases hv : st col with
  | none => rw [hv] at htr; simp [optTruthy] at htr
  | some v =>
    rw [hv] at htr
    have hcond := seedCond_of_defined mapping st col hcol (by simp [hv])
    refine ⟨v, ?_, htr⟩
    rw [initialGrades_lookup, hst]
    simp [hcond, hv]

/-- A cell outside the seeded range is absent from the seeded store. -/
theorem seed_off (students : List Student) (mapping : HeaderMapping)
    (sid col : String)
    (h : sid ∉ studentKeys students mapping ∨ col ∉ getAllGradeColumns mapping) :
    initialGrades students mapping sid col = none := by
  rw [initialGrades_lookup]
  cases hl : lastKeyed mapping students sid with
  | none => rfl
  | some st =>
    cases h with
    | inl h => exact absurd ((mem_studentKeys_iff students mapping sid).2 ⟨st, hl⟩) h
    | inr h =>
      have hnc : ¬ seedCond mapping st col := fun hcond =>
        h (seedCond_mem_allCols mapping st col hcond)
      simp [hnc]

/-! ### `saveGrade` branch characterisations and the sequential invariant -/

theorem saveGrade_invalid (S : GState) (sid col text : String)
    (hv : validateGrade text = false) : saveGrade S sid col text = S := by
  simp [saveGrade, hv]

theorem saveGrade_noop (S : GState) (sid col text : String)
    (hv : validateGrade text = true)
    (heq : valEq (jsOr (S.grades sid col)) (newValOf text) = true) :
    saveGrade S sid col text = S := by
  simp [saveGrade, hv, heq]

theorem saveGrade_append (S : GState) (sid col text : String)
    (hv : validateGrade text = true)
    (hne : valEq (jsOr (S.grades sid col)) (newValOf text) = false)
    (hcur : S.currentHistoryIndex = (S.editHistory.length : Int) - 1)
    (hlen : S.editHistory.length < 50) :
    saveGrade S sid col text =
      { grades := S.grades.set sid col (newValOf text)
        editHistory :=
          S.editHistory ++ [⟨sid, col, jsOr (S.grades sid col), newValOf text⟩]
        currentHistoryIndex := (S.editHistory.length : Int) } := by
  have h1 : (S.currentHistoryIndex + 1).toNat = S.editHistory.length := by
    rw [hcur]; omega
  simp only [saveGrade, hv, Bool.not_true, Bool.false_eq_true, if_false, hne,
    addToEditHistory, h1, List.take_length]
  have h2 : ¬ (S.editHistory.length + 1 > 50) := by omega
  simp only [List.length_append, List.length_cons, List.length_nil, Nat.zero_add, h2, if_false]
  have h3 : min (S.currentHistoryIndex + 1) (S.editHistory.length : Int)
      = (S.editHistory.length : Int) := by rw [hcur]; omega
  rw [h3]

theorem newValOf_good (text : String) (hnz : notZeroParse text = true) :
    (newValOf text).truthy ∨ newValOf text = .s "" := by
  unfold newValOf
  by_cases ht : text = ""
  · simp [ht]
  · simp only [ht, if_false]
    unfold notZeroParse at hnz
    cases hp : parseFloat text with
    | none => simp
    | some q =>
      cases q with
      | fin qq =>
        rw [hp] at hnz
        simp only [decide_eq_true_eq] at hnz
        exact Or.inl (by simpa [Val.truthy] using hnz)
      | inf b => exact Or.inl rfl

/-- Under the sequential invariant, an allowed cell of the store holds a
defined value that survives the `|| ""` coercion. -/
theorem cell_good (students : List Student) (mapping : HeaderMapping) (S : GState)
    (hInv : SeqInv students mapping S)
    (horig : ∀ st ∈ students, ∀ c ∈ getAllGradeColumns mapping, optTruthy (st c) = true)
    (sid col : String) (hsid : sid ∈ studentKeys students mapping)
    (hcol : col ∈ getAllGradeColumns mapping) :
    ∃ v, S.grades sid col = some v ∧ (v.truthy ∨ v = .s "") := by
  rw [hInv.grades_eq, replay_lookup]
  cases ht : lastTouch S.editHistory sid col with
  | some x =>
    obtain ⟨hx, _, _⟩ := lastTouch_spec S.editHistory sid col x ht
    exact ⟨x.newValue, rfl, (hInv.entries x hx).2⟩
  | none =>
    obtain ⟨v, hv, htr⟩ := seed_allowed students mapping horig sid col hsid hcol
    exact ⟨v, hv, Or.inl htr⟩

theorem seqInv_step (students : List Student) (mapping : HeaderMapping) (S : GState)
    (sid col text : String)
    (hInv : SeqInv students mapping S)
    (hlen : S.editHistory.length < 50)
    (hsid : sid ∈ studentKeys students mapping)
    (hcol : col ∈ getAllGradeColumns mapping)
    (hnz : notZeroParse text = true)
    (horig : ∀ st ∈ students, ∀ c ∈ getAllGradeColumns mapping, optTruthy (st c) = true) :
    SeqInv students mapping (saveGrade S sid col text) ∧
      (saveGrade S sid col text).editHistory.length ≤ S.editHistory.length + 1 := by
  by_cases hv : validateGrade text
  case neg =>
    rw [saveGrade_invalid S sid col text (by simpa using hv)]
    exact ⟨hInv, by omega⟩
  case pos =>
    by_cases heq : valEq (jsOr (S.grades sid col)) (newValOf text)
    case pos =>
      rw [saveGrade_noop S sid col text hv heq]
      exact ⟨hInv, by omega⟩
    case neg =>
      rw [saveGrade_append S sid col text hv (by simpa using heq) hInv.cursor hlen]
      set e : EditHistoryEntry := ⟨sid, col, jsOr (S.grades sid col), newValOf text⟩ with he
      constructor
      · refine ⟨?_, ?_, ?_, ?_⟩
        · simp
        · intro x hx
          rcases List.mem_append.1 hx with hxo | hxe
          · exact hInv.entries x hxo
          · have hxe' : x = e := by simpa using hxe
            subst hxe'
            exact ⟨⟨hsid, hcol⟩, newValOf_good text hnz⟩
        · intro s c
          show S.grades.set sid col (newValOf text) s c
            = replay (S.editHistory ++ [e]) (initialGrades students mapping) s c
          rw [replay_append]
          show _ = ((replay S.editHistory (initialGrades students mapping)).set
            e.studentId e.column e.newValue) s c
          rw [Store.set_lookup, Store.set_lookup]
          by_cases hc : s = sid ∧ c = col
          · simp [he, hc]
          · simp only [he, if_neg hc]
            exact hInv.grades_eq s c
        · intro j hj
          simp only [List.length_append, List.length_cons, List.length_nil,
            Nat.zero_add] at hj
          by_cases hjl : j < S.editHistory.length
          case pos =>
            have hget : (S.editHistory ++ [e]).get ⟨j, by simp; omega⟩
                = S.editHistory.get ⟨j, hjl⟩ := by
              rw [List.get_append]
            have htake : (S.editHistory ++ [e]).take j = S.editHistory.take j := by
              rw [List.take_append_eq_append_take, Nat.sub_eq_zero_of_le (le_of_lt hjl)]
              simp
            simp only [hget, htake]
            exact hInv.old_ok j hjl
          case neg =>
            have hj' : j = S.editHistory.length := by omega
            subst hj'
            have hget : (S.editHistory ++ [e]).get ⟨S.editHistory.length, by simp⟩ = e := by
              simp [List.get_eq_getElem, List.getElem_append_right]
            have htake : (S.editHistory ++ [e]).take S.editHistory.length
                = S.editHistory := List.take_left _ _
            simp only [hget, htake]
            obtain ⟨v, hval, hgood⟩ :=
              cell_good students mapping S hInv horig sid col hsid hcol
            rw [hInv.grades_eq] at hval
            show replay S.editHistory (initialGrades students mapping) sid col
              = some (jsOr (S.grades sid col))
            rw [hval, hInv.grades_eq, hval]
            simp [jsOr_good v hgood]
      · simp

theorem seqInv_commitAll (students : List Student) (mapping : HeaderMapping)
    (horig : ∀ st ∈ students, ∀ c ∈ getAllGradeColumns mapping, optTruthy (st c) = true)
    (cs : List (String × String × String)) :
    ∀ S : GState, SeqInv students mapping S →
    S.editHistory.length + cs.length ≤ 50 →
    (∀ c ∈ cs, c.1 ∈ studentKeys students mapping ∧
        c.2.1 ∈ getAllGradeColumns mapping ∧ notZeroParse c.2.2 = true) →
    SeqInv students mapping (commitAll S cs) ∧
      (commitAll S cs).editHistory.length ≤ S.editHistory.length + cs.length := by
  induction cs with
  | nil =>
    intro S hInv _ _
    exact ⟨hInv, by simp [commitAll]⟩
  | cons c rest ih =>
    intro S hInv hb hc
    obtain ⟨h1, h2, h3⟩ := hc c (List.mem_cons_self c rest)
    have hlen : S.editHistory.length < 50 := by
      simp only [List.length_cons] at hb; omega
    have hstep := seqInv_step students mapping S c.1 c.2.1 c.2.2 hInv hlen h1 h2 h3 horig
    have hrest := ih (saveGrade S c.1 c.2.1 c.2.2) hstep.1
      (by simp only [List.length_cons] at hb; omega)
      (fun x hx => hc x (List.mem_cons_of_mem c hx))
    refine ⟨hrest.1, ?_⟩
    have : commitAll S (c :: rest) = commitAll (saveGrade S c.1 c.2.1 c.2.2) rest := rfl
    rw [this]
    simp only [List.length_cons]
    omega

theorem undoTimes_spec (students : List Student) (mapping : HeaderMapping) (S : GState)
    (hInv : SeqInv students mapping S) :
    ∀ k : Nat, k ≤ S.editHistory.length →
    (undoTimes S k).editHistory = S.editHistory ∧
    (undoTimes S k).currentHistoryIndex = (S.editHistory.length : Int) - 1 - k ∧
    (∀ sid col, (undoTimes S k).grades sid col
        = replay (S.editHistory.take (S.editHistory.length - k))
            (initialGrades students mapping) sid col) := by
  intro k
  induction k with
  | zero =>
    intro _
    refine ⟨rfl, by simpa using hInv.cursor, ?_⟩
    intro sid col
    simpa [List.take_length] using hInv.grades_eq sid col
  | succ k ih =>
    intro hk
    obtain ⟨hh, hc, hg⟩ := ih (by omega)
    have hcge : (undoTimes S k).currentHistoryIndex ≥ 0 := by rw [hc]; omega
    have hj : (undoTimes S k).currentHistoryIndex.toNat
        = S.editHistory.length - 1 - k := by rw [hc]; omega
    have hjlt : S.editHistory.length - 1 - k < S.editHistory.length := by omega
    have hget : (undoTimes S k).editHistory.get? (undoTimes S k).currentHistoryIndex.toNat
        = some (S.editHistory.get ⟨S.editHistory.length - 1 - k, hjlt⟩) := by
      rw [hh, hj, List.get?_eq_get hjlt]
    have hstep : undoTimes S (k + 1) = handleUndo (undoTimes S k) := rfl
    rw [hstep]
    unfold handleUndo
    rw [if_pos hcge, hget]
    refine ⟨hh, ?_, ?_⟩
    · show (if (undoTimes S k).currentHistoryIndex > 0
          then (undoTimes S k).currentHistoryIndex - 1 else -1)
        = (S.editHistory.length : Int) - 1 - (k + 1)
      rw [hc]
      by_cases hpos : ((S.editHistory.length : Int) - 1 - k) > 0
      · rw [if_pos hpos]; omega
      · rw [if_neg hpos]; omega
    · intro sid col
      set e := S.editHistory.get ⟨S.editHistory.length - 1 - k, hjlt⟩ with hedef
      show ((undoTimes S k).grades.set e.studentId e.column e.oldValue) sid col = _
      have htake : S.editHistory.take (S.editHistory.length - k)
          = S.editHistory.take (S.editHistory.length - 1 - k) ++ [e] := by
        have hs : S.editHistory.length - k = (S.editHistory.length - 1 - k) + 1 := by omega
        rw [hs, List.take_succ]
        have hopt : S.editHistory[S.editHistory.length - 1 - k]? = some e := by
          rw [List.getElem?_eq_getElem hjlt]
          rfl
        rw [hopt]
        rfl
      have hsplit : ∀ s c,
          replay (S.editHistory.take (S.editHistory.length - k))
              (initialGrades students mapping) s c
            = ((replay (S.editHistory.take (S.editHistory.length - 1 - k))
                (initialGrades students mapping)).set e.studentId e.column e.newValue) s c := by
        intro s c
        rw [htake, replay_append]
        rfl
      rw [Store.set_lookup]
      by_cases hcell : sid = e.studentId ∧ col = e.column
      · rw [if_pos hcell]
        have harith : S.editHistory.length - (k + 1) = S.editHistory.length - 1 - k := by
          omega
        rw [hcell.1, hcell.2, harith]
        have hold := hInv.old_ok (S.editHistory.length - 1 - k) hjlt
        rw [← hedef] at hold
        exact hold.symm
      · rw [if_neg hcell, hg sid col, hsplit sid col, Store.set_lookup, if_neg hcell]
        have harith : S.editHistory.length - (k + 1) = S.editHistory.length - 1 - k := by
          omega
        rw [harith]

/-- Pointwise equality of the jump reset and the seeded store, in any
state satisfying the sequential invariant with truthy originals. -/
theorem reset_eq_seed (students : List Student) (mapping : HeaderMapping) (S : GState)
    (hInv : SeqInv students mapping S)
    (horig : ∀ st ∈ students, ∀ c ∈ getAllGradeColumns mapping, optTruthy (st c) = true) :
    ∀ sid col, resetGrades students mapping S.grades sid col
      = initialGrades students mapping sid col := by
  intro sid col
  rw [resetGrades_lookup]
  cases hl : lastKeyed mapping students sid with
  | none =>
    have hnk : sid ∉ studentKeys students mapping := by
      intro hmem
      obtain ⟨st, hst⟩ := (mem_studentKeys_iff students mapping sid).1 hmem
      rw [hl] at hst
      cases hst
    rw [hInv.grades_eq, replay_lookup]
    cases ht : lastTouch S.editHistory sid col with
    | some x =>
      obtain ⟨hx, hxs, _⟩ := lastTouch_spec S.editHistory sid col x ht
      exact absurd (hxs ▸ (hInv.entries x hx).1.1) hnk
    | none => rfl
  | some st =>
    show (if col ∈ getAllGradeColumns mapping then some (jsOr (st col))
        else S.grades sid col) = _
    by_cases hcol : col ∈ getAllGradeColumns mapping
    · rw [if_pos hcol]
      have hmem := lastKeyed_mem mapping students sid st hl
      have htr := horig st hmem col hcol
      cases hvc : st col with
      | none => rw [hvc] at htr; simp [optTruthy] at htr
      | some v =>
        rw [hvc] at htr
        rw [initialGrades_lookup, hl]
        show some (jsOr (some v)) = (if seedCond mapping st col then st col else none)
        rw [if_pos (seedCond_of_defined mapping st col hcol (by simp [hvc])), hvc]
        simp only [optTruthy] at htr
        simp [jsOr, htr]
    · rw [if_neg hcol]
      have hseed : initialGrades students mapping sid col = none :=
        seed_off students mapping sid col (Or.inr hcol)
      rw [hseed, hInv.grades_eq, replay_lookup]
      cases ht : lastTouch S.editHistory sid col with
      | some x =>
        obtain ⟨hx, _, hxc⟩ := lastTouch_spec S.editHistory sid col x ht
        exact absurd (hxc ▸ (hInv.entries x hx).1.2) hcol
      | none => rw [hseed]

/-! ### Structure-inference lemmas -/

theorem detectPass1Step_nomatch (m : HeaderMapping) (x : String)
    (h1 : idMatch (jsToLower x) = false) (h2 : nameMatch (jsToLower x) = false) :
    detectPass1Step m x = m := by
  unfold detectPass1Step
  rw [if_neg (by simp [h1]), if_neg (by simp [h2])]

theorem detectPass1_nomatch (headers : List String)
    (h : ∀ x ∈ headers, idMatch (jsToLower x) = false ∧ nameMatch (jsToLower x) = false) :
    detectPass1 headers = ⟨"", "", "", []⟩ := by
  unfold detectPass1
  have gen : ∀ (l : List String),
      (∀ x ∈ l, idMatch (jsToLower x) = false ∧ nameMatch (jsToLower x) = false) →
      ∀ m : HeaderMapping, l.foldl detectPass1Step m = m := by
    intro l
    induction l with
    | nil => intro _ m; rfl
    | cons x t ih =>
      intro hl m
      have hx := hl x (List.mem_cons_self x t)
      rw [List.foldl_cons, detectPass1Step_nomatch m x hx.1 hx.2]
      exact ih (fun y hy => hl y (List.mem_cons_of_mem x hy)) m
  exact gen headers h _

/-- Claim C8 (confirmed): when no identifier/name/grade pattern and no
content fallback (all-digit or `__EMPTY` header, Arabic letters) matches
any header, `detectHeaders` falls back positionally: with at least two
headers the first two become identifier and name; with at least three the
third becomes the primary grade and the headers beyond the third,
excluding identifier and name, become the additional grade columns. -/
theorem detectGradeFallback_id_name (headers : List String) (m : HeaderMapping) :
    (detectGradeFallback headers m).id = m.id ∧ (detectGradeFallback headers m).name = m.name := by
  unfold detectGradeFallback
  split
  · split <;> simp
  · simp

theorem positional_fallback (headers : List String)
    (hnone : ∀ x ∈ headers, idMatch (jsToLower x) = false ∧ nameMatch (jsToLower x) = false ∧
        gradeMatch (jsToLower x) = false ∧ isAllDigits x = false ∧
        strContains x "__EMPTY" = false ∧ hasArabicChar x = false) :
    (∀ h0 h1 rest, headers = h0 :: h1 :: rest →
      (detectHeaders headers).id = h0 ∧ (detectHeaders headers).name = h1) ∧
    (∀ h0 h1 h2 rest, headers = h0 :: h1 :: h2 :: rest →
      (detectHeaders headers).grade = h2 ∧
      (detectHeaders headers).gradeColumns
        = rest.filter (fun h => h ≠ h0 ∧ h ≠ h1)) := by
  have hp1 : detectPass1 headers = ⟨"", "", "", []⟩ :=
    detectPass1_nomatch headers (fun x hx => ⟨(hnone x hx).1, (hnone x hx).2.1⟩)
  have hfilter : headers.filter
      (fun header => header ≠ "" ∧ header ≠ "" ∧
        gradeMatch (jsToLower header)) = [] := by
    rw [List.filter_eq_nil]
    intro x hx
    simp [(hnone x hx).2.2.1]
  have hf1 : headers.find? (fun h => isAllDigits h || strContains h "__EMPTY") = none := by
    rw [List.find?_eq_none]
    intro x hx
    simp [(hnone x hx).2.2.2.1, (hnone x hx).2.2.2.2.1]
  have hf2 : headers.find? (fun h => hasArabicChar h) = none := by
    rw [List.find?_eq_none]
    intro x hx
    simp [(hnone x hx).2.2.2.2.2]
  have hgp : detectGradePass headers ⟨"", "", "", []⟩ = ⟨"", "", "", []⟩ := by
    unfold detectGradePass
    dsimp only
    rw [hfilter]
  have hif : detectIdFallback headers ⟨"", "", "", []⟩ = ⟨"", "", "", []⟩ := by
    simp [detectIdFallback, hf1]
  have hnf : detectNameFallback headers ⟨"", "", "", []⟩ = ⟨"", "", "", []⟩ := by
    simp [detectNameFallback, hf2]
  refine ⟨?_, ?_⟩
  · intro h0 h1 rest hsh
    have hpf : detectPositionalFallback headers ⟨"", "", "", []⟩ = ⟨h0, h1, "", []⟩ := by
      simp [detectPositionalFallback, hsh]
    unfold detectHeaders
    rw [hp1, hgp]
    dsimp only
    rw [hif, hnf, hpf, hsh]
    simp only [List.length_cons, if_pos (by omega : 0 < rest.length + 1 + 1)]
    rw [← hsh]
    exact detectGradeFallback_id_name headers ⟨h0, h1, "", []⟩
  · intro h0 h1 h2 rest hsh
    have hpf : detectPositionalFallback headers ⟨"", "", "", []⟩ = ⟨h0, h1, "", []⟩ := by
      simp [detectPositionalFallback, hsh]
    unfold detectHeaders
    rw [hp1, hgp]
    dsimp only
    rw [hif, hnf, hpf, hsh]
    simp only [List.length_cons, if_pos (by omega : 0 < rest.length + 1 + 1 + 1)]
    have hgf : detectGradeFallback (h0 :: h1 :: h2 :: rest) ⟨h0, h1, "", []⟩ =
        ⟨h0, h1, h2, if rest.length > 0 then rest.filter (fun h => h ≠ h0 ∧ h ≠ h1) else []⟩ := by
      simp [detectGradeFallback]
    rw [hgf]
    refine ⟨rfl, ?_⟩
    show (if rest.length > 0 then rest.filter (fun h => h ≠ h0 ∧ h ≠ h1) else [])
      = rest.filter (fun h => h ≠ h0 ∧ h ≠ h1)
    cases rest <;> simp

/-- Witness for C8 at Scenario B's headers
`["Column 1","Column 2","Column 3","Column 4"]`. -/
theorem positional_fallback_witness :
    (detectHeaders ["Column 1", "Column 2", "Column 3", "Column 4"]).id = "Column 1" ∧
    (detectHeaders ["Column 1", "Column 2", "Column 3", "Column 4"]).name = "Column 2" ∧
    (detectHeaders ["Column 1", "Column 2", "Column 3", "Column 4"]).grade = "Column 3" ∧
    (detectHeaders ["Column 1", "Column 2", "Column 3", "Column 4"]).gradeColumns
      = ["Column 4"].filter (fun h => h ≠ "Column 1" ∧ h ≠ "Column 2") := by
  have h := positional_fallback ["Column 1", "Column 2", "Column 3", "Column 4"] (by decide)
  obtain ⟨hid, hname⟩ := h.1 "Column 1" "Column 2" ["Column 3", "Column 4"] rfl
  obtain ⟨hgrade, hcols⟩ := h.2 "Column 1" "Column 2" "Column 3" ["Column 4"] rfl
  exact ⟨hid, hname, hgrade, hcols⟩

/-! ### Membership and uniqueness of inferred mappings (C6) -/

theorem detectPass1_spec (headers : List String) :
    MapsInto headers (detectPass1 headers) ∧
      (detectPass1 headers).grade = "" ∧ (detectPass1 headers).gradeColumns = [] := by
  unfold detectPass1
  refine List.foldlRecOn
    (motive := fun m => MapsInto headers m ∧ m.grade = "" ∧ m.gradeColumns = [])
    headers detectPass1Step ⟨"", "", "", []⟩ ?_ ?_
  · exact ⟨⟨Or.inl rfl, Or.inl rfl, Or.inl rfl, by simp⟩, rfl, rfl⟩
  · intro b hb a ha
    unfold detectPass1Step
    dsimp only
    split
    · exact ⟨⟨Or.inr ha, hb.1.2.1, hb.1.2.2⟩, hb.2⟩
    · split
      · exact ⟨⟨hb.1.1, Or.inr ha, hb.1.2.2⟩, hb.2⟩
      · exact hb

theorem detectGradePass_maps (headers : List String) (m : HeaderMapping)
    (h : MapsInto headers m) : MapsInto headers (detectGradePass headers m) := by
  unfold detectGradePass
  dsimp only
  cases hpot : headers.filter
      (fun header => header ≠ m.id ∧ header ≠ m.name ∧ gradeMatch (jsToLower header)) with
  | nil => exact h
  | cons g rest =>
    have hsub : ∀ x ∈ g :: rest, x ∈ headers := by
      intro x hx
      rw [← hpot] at hx
      exact List.mem_of_mem_filter hx
    exact ⟨h.1, h.2.1, Or.inr (hsub g (List.mem_cons_self g rest)),
      fun c hc => hsub c (List.mem_cons_of_mem g hc)⟩

theorem detectIdFallback_maps (headers : List String) (m : HeaderMapping)
    (h : MapsInto headers m) : MapsInto headers (detectIdFallback headers m) := by
  unfold detectIdFallback
  split
  · cases hf : headers.find? (fun h => isAllDigits h || strContains h "__EMPTY") with
    | some x => exact ⟨Or.inr (List.mem_of_find?_eq_some hf), h.2⟩
    | none => exact h
  · exact h

theorem detectNameFallback_maps (headers : List String) (m : HeaderMapping)
    (h : MapsInto headers m) : MapsInto headers (detectNameFallback headers m) := by
  unfold detectNameFallback
  split
  · cases hf : headers.find? (fun h => hasArabicChar h) with
    | some x => exact ⟨h.1, Or.inr (List.mem_of_find?_eq_some hf), h.2.2⟩
    | none => exact h
  · exact h

theorem detectPositionalFallback_maps (headers : List String) (m : HeaderMapping)
    (h : MapsInto headers m) : MapsInto headers (detectPositionalFallback headers m) := by
  unfold detectPositionalFallback
  split
  · split
    · rename_i h0 h1 t
      dsimp only
      split <;> split <;> simp_all [MapsInto]
    · exact h
  · exact h

theorem detectGradeFallback_maps (headers : List String) (m : HeaderMapping)
    (h : MapsInto headers m) : MapsInto headers (detectGradeFallback headers m) := by
  unfold detectGradeFallback
  split
  · split
    · refine ⟨h.1, h.2.1, Or.inr (by simp), ?_⟩
      split
      · intro c hc
        have hcm := List.mem_of_mem_filter hc
        simp [hcm]
      · exact h.2.2.2
    · exact h
  · exact h

theorem detectIdFallback_grade_cols (headers : List String) (m : HeaderMapping) :
    (detectIdFallback headers m).grade = m.grade ∧
      (detectIdFallback headers m).gradeColumns = m.gradeColumns := by
  unfold detectIdFallback
  split
  · split <;> simp
  · simp

theorem detectNameFallback_grade_cols (headers : List String) (m : HeaderMapping) :
    (detectNameFallback headers m).grade = m.grade ∧
      (detectNameFallback headers m).gradeColumns = m.gradeColumns := by
  unfold detectNameFallback
  split
  · split <;> simp
  · simp

theorem detectPositionalFallback_grade_cols (headers : List String) (m : HeaderMapping) :
    (detectPositionalFallback headers m).grade = m.grade ∧
      (detectPositionalFallback headers m).gradeColumns = m.gradeColumns := by
  unfold detectPositionalFallback
  split
  · split
    · dsimp only
      split <;> split <;> simp
    · simp
  · simp

theorem fallback3_grade_cols (headers : List String) (m : HeaderMapping) :
    (detectPositionalFallback headers
        (detectNameFallback headers (detectIdFallback headers m))).grade = m.grade ∧
    (detectPositionalFallback headers
        (detectNameFallback headers (detectIdFallback headers m))).gradeColumns
      = m.gradeColumns := by
  have h1 := detectIdFallback_grade_cols headers m
  have h2 := detectNameFallback_grade_cols headers (detectIdFallback headers m)
  have h3 := detectPositionalFallback_grade_cols headers
    (detectNameFallback headers (detectIdFallback headers m))
  exact ⟨h3.1.trans (h2.1.trans h1.1), h3.2.trans (h2.2.trans h1.2)⟩

theorem detectGradeFallback_unique (headers : List String) (m : HeaderMapping)
    (hnd : headers.Nodup) (hcols : m.gradeColumns = []) :
    (detectGradeFallback headers m).gradeColumns.Nodup ∧
    (detectGradeFallback headers m).grade ∉ (detectGradeFallback headers m).gradeColumns := by
  unfold detectGradeFallback
  split
  · split
    · rename_i a b h2 rest hcond
      dsimp only
      have hrest : rest.Nodup := by
        simp only [List.nodup_cons] at hnd
        exact hnd.2.2.2
      have hh2 : h2 ∉ rest := by
        simp only [List.nodup_cons] at hnd
        exact hnd.2.2.1
      constructor
      · split
        · exact List.Nodup.filter _ hrest
        · simp [hcols]
      · split
        · intro hc
          exact hh2 (List.mem_of_mem_filter hc)
        · simp [hcols]
    · simp [hcols]
  · simp [hcols]

theorem detectHeaders_unique (headers : List String) (hnd : headers.Nodup) :
    (detectHeaders headers).gradeColumns.Nodup ∧
    (detectHeaders headers).grade ∉ (detectHeaders headers).gradeColumns := by
  obtain ⟨-, hg1, hc1⟩ := detectPass1_spec headers
  unfold detectHeaders detectGradePass
  dsimp only
  cases hpot : headers.filter
      (fun header => header ≠ (detectPass1 headers).id ∧
        header ≠ (detectPass1 headers).name ∧ gradeMatch (jsToLower header)) with
  | nil =>
    split
    · have hp := fallback3_grade_cols headers (detectPass1 headers)
      exact detectGradeFallback_unique headers _ hnd (hp.2.trans hc1)
    · simp [hc1]
  | cons g rest =>
    have hne : headers.length > 0 := by
      cases headers with
      | nil => simp at hpot
      | cons a t => simp
    rw [if_pos hne]
    have hgmem : g ∈ headers.filter
        (fun header => header ≠ (detectPass1 headers).id ∧
          header ≠ (detectPass1 headers).name ∧ gradeMatch (jsToLower header)) := by
      rw [hpot]
      exact List.mem_cons_self g rest
    have hgm : gradeMatch (jsToLower g) = true := by
      have := List.of_mem_filter hgmem
      simp at this
      exact this.2.2
    have hgne : g ≠ "" := by
      intro hg
      rw [hg] at hgm
      exact absurd hgm (by decide)
    have hp := fallback3_grade_cols headers
      { detectPass1 headers with grade := g, gradeColumns := rest }
    unfold detectGradeFallback
    rw [if_neg (by
      intro hcond
      rw [hp.1] at hcond
      exact hgne hcond.1)]
    rw [hp.1, hp.2]
    have hfn := List.Nodup.filter
      (fun header => decide (header ≠ (detectPass1 headers).id ∧
        header ≠ (detectPass1 headers).name ∧ gradeMatch (jsToLower header) = true)) hnd
    rw [hpot] at hfn
    rw [List.nodup_cons] at hfn
    exact ⟨hfn.2, hfn.1⟩

theorem enhancePass_maps (headers : List String) :
    MapsInto headers (enhancePass headers) ∧
      ((enhancePass headers).grade = "" → (enhancePass headers).gradeColumns = []) := by
  unfold enhancePass
  refine List.foldlRecOn
    (motive := fun m => MapsInto headers m ∧ (m.grade = "" → m.gradeColumns = []))
    headers enhancePassStep ⟨"", "", "", []⟩
    ⟨⟨Or.inl rfl, Or.inl rfl, Or.inl rfl, by simp⟩, fun _ => rfl⟩ ?_
  intro b hb a ha
  unfold enhancePassStep
  dsimp only
  split
  · exact ⟨⟨Or.inr ha, hb.1.2.1, hb.1.2.2⟩, hb.2⟩
  · split
    · exact ⟨⟨hb.1.1, Or.inr ha, hb.1.2.2⟩, hb.2⟩
    · split
      · split
        · rename_i hgm hgr
          exact ⟨⟨hb.1.1, hb.1.2.1, Or.inr ha, hb.1.2.2.2⟩, fun _ => hb.2 hgr⟩
        · rename_i hgm hgr
          refine ⟨⟨hb.1.1, hb.1.2.1, hb.1.2.2.1, ?_⟩, fun hg => absurd hg hgr⟩
          intro c hc
          rcases List.mem_append.1 hc with hco | hca
          · exact hb.1.2.2.2 c hco
          · simp at hca
            rw [hca]
            exact ha
      · exact hb

theorem enhInv_mono (s s' : List String) (m : HeaderMapping)
    (h : EnhInv s m) (hsub : ∀ x ∈ s, x ∈ s') : EnhInv s' m := by
  obtain ⟨h1, h2, h3, h4, h5, h6, h7, h8, h9, h10⟩ := h
  exact ⟨h1.imp id (hsub _), h2.imp id (hsub _), h3.imp id (hsub _),
    fun c hc => hsub c (h4 c hc), h5, h6, h7, h8, h9, h10⟩

theorem enhancePass_inv (l : List String) :
    ∀ (seen : List String) (m : HeaderMapping),
    EnhInv seen m → (seen ++ l).Nodup →
    EnhInv (seen ++ l) (l.foldl enhancePassStep m) := by
  induction l with
  | nil =>
    intro seen m h hnd
    simpa using h
  | cons x t ih =>
    intro seen m h hnd
    have hxs : x ∉ seen := by
      rw [List.nodup_append] at hnd
      exact fun hx => hnd.2.2 hx (List.mem_cons_self x t)
    have hstep : EnhInv (seen ++ [x]) (enhancePassStep m x) := by
      obtain ⟨h1, h2, h3, h4, h5, h6, h7, h8, h9, h10⟩ := h
      have hmono : ∀ y ∈ seen, y ∈ seen ++ [x] := fun y hy => List.mem_append_left _ hy
      have hxmem : x ∈ seen ++ [x] := List.mem_append_right _ (List.mem_cons_self x [])
      unfold enhancePassStep
      dsimp only
      split
      · refine ⟨Or.inr hxmem, h2.imp id (hmono _), h3.imp id (hmono _),
          fun c hc => hmono c (h4 c hc), h5, ?_, h7, h8, h9, h10⟩
        intro hx
        exact hxs (h4 x hx)
      · split
        · refine ⟨h1.imp id (hmono _), Or.inr hxmem, h3.imp id (hmono _),
            fun c hc => hmono c (h4 c hc), h5, h6, ?_, h8, h9, h10⟩
          intro hx
          exact hxs (h4 x hx)
        · split
          · split
            · rename_i hgm hgr
              refine ⟨h1.imp id (hmono _), h2.imp id (hmono _), Or.inr hxmem,
                fun c hc => hmono c (h4 c hc), h5, h6, h7, ?_, h9, ?_⟩
              · rw [h10 hgr]
                simp
              · intro hx
                have : x ≠ "" := by
                  intro hxe
                  rw [hxe] at hgm
                  exact absurd hgm (by decide)
                exact absurd hx this
            · rename_i hgm hgr
              have hxne : x ≠ "" := by
                intro hxe
                rw [hxe] at hgm
                exact absurd hgm (by decide)
              have hxcols : x ∉ m.gradeColumns := fun hx => hxs (h4 x hx)
              refine ⟨h1.imp id (hmono _), h2.imp id (hmono _), h3.imp id (hmono _),
                ?_, ?_, ?_, ?_, ?_, ?_, fun hg => absurd hg hgr⟩
              · intro c hc
                rcases List.mem_append.1 hc with hco | hca
                · exact hmono c (h4 c hco)
                · simp at hca
                  rw [hca]
                  exact hxmem
              · simp [List.nodup_append, h5, hxcols]
              · intro hc
                rcases List.mem_append.1 hc with hco | hca
                · exact h6 hco
                · simp at hca
                  rcases h1 with hid | hid
                  · rw [hid] at hca
                    exact hxne hca.symm
                  · rw [hca] at hid
                    exact hxs hid
              · intro hc
                rcases List.mem_append.1 hc with hco | hca
                · exact h7 hco
                · simp at hca
                  rcases h2 with hnm | hnm
                  · rw [hnm] at hca
                    exact hxne hca.symm
                  · rw [hca] at hnm
                    exact hxs hnm
              · intro hc
                rcases List.mem_append.1 hc with hco | hca
                · exact h8 hco
                · simp at hca
                  rcases h3 with hgr' | hgr'
                  · exact hgr hgr'
                  · rw [hca] at hgr'
                    exact hxs hgr'
              · intro c hc
                rcases List.mem_append.1 hc with hco | hca
                · exact h9 c hco
                · simp at hca
                  rw [hca]
                  exact hxne
          · exact enhInv_mono seen _ m ⟨h1, h2, h3, h4, h5, h6, h7, h8, h9, h10⟩ hmono
    have hnd' : ((seen ++ [x]) ++ t).Nodup := by
      rw [List.append_assoc]
      simpa using hnd
    have := ih (seen ++ [x]) (enhancePassStep m x) hstep hnd'
    rw [List.append_assoc] at this
    simpa using this

theorem enhance_spec (headers : List String) (gp : Option HeaderMapping) (m : HeaderMapping)
    (heq : enhanceHeaderMappingForEmptySheet headers gp = some m) :
    MapsInto headers m ∧
      (headers.Nodup → m.gradeColumns.Nodup ∧ m.id ∉ m.gradeColumns ∧
        m.name ∉ m.gradeColumns ∧ m.grade ∉ m.gradeColumns) := by
  unfold enhanceHeaderMappingForEmptySheet at heq
  by_cases hguard : gp = none ∨ headers = []
  · rw [if_pos hguard] at heq
    cases heq
  · rw [if_neg hguard] at heq
    dsimp only at heq
    injection heq with heq
    by_cases hempty : (enhancePass headers).id = "" ∧ (enhancePass headers).name = ""
        ∧ (enhancePass headers).grade = ""
    · rw [if_pos hempty] at heq
      cases headers with
      | nil => exact absurd (Or.inr rfl) hguard
      | cons h0 t0 =>
        cases t0 with
        | nil =>
          dsimp only at heq
          rw [← heq]
          refine ⟨(enhancePass_maps [h0]).1, fun _ => ?_⟩
          rw [(enhancePass_maps [h0]).2 hempty.2.2]
          simp
        | cons h1 rest0 =>
          cases rest0 with
          | nil =>
            dsimp only at heq
            rw [← heq]
            have hc0 : (enhancePass [h0, h1]).gradeColumns = [] :=
              (enhancePass_maps [h0, h1]).2 hempty.2.2
            constructor
            · exact ⟨Or.inr (by simp), Or.inr (by simp), Or.inl hempty.2.2,
                by rw [hc0]; simp⟩
            · intro _
              rw [hc0]
              simp
          | cons h2 rest =>
            dsimp only at heq
            by_cases hrest : rest.length > 0
            · rw [if_pos hrest] at heq
              rw [← heq]
              constructor
              · refine ⟨Or.inr (by simp), Or.inr (by simp), Or.inr (by simp), ?_⟩
                intro c hc
                simp only [List.mem_cons]
                right; right; right
                exact hc
              · intro hnd
                rw [List.nodup_cons, List.nodup_cons, List.nodup_cons] at hnd
                refine ⟨hnd.2.2.2, ?_, ?_, hnd.2.2.1⟩
                · intro hc
                  exact hnd.1 (List.mem_cons_of_mem _ (List.mem_cons_of_mem _ hc))
                · intro hc
                  exact hnd.2.1 (List.mem_cons_of_mem _ hc)
            · rw [if_neg hrest] at heq
              rw [← heq]
              have hc0 : (enhancePass (h0 :: h1 :: h2 :: rest)).gradeColumns = [] :=
                (enhancePass_maps _).2 hempty.2.2
              constructor
              · exact ⟨Or.inr (by simp), Or.inr (by simp), Or.inr (by simp),
                  by rw [hc0]; simp⟩
              · intro _
                rw [hc0]
                simp
    · rw [if_neg hempty] at heq
      rw [← heq]
      refine ⟨(enhancePass_maps headers).1, fun hnd => ?_⟩
      have hbase : EnhInv [] (⟨"", "", "", []⟩ : HeaderMapping) := by
        refine ⟨Or.inl rfl, Or.inl rfl, Or.inl rfl, by simp, ?_, by simp, by simp, by simp,
          by simp, fun _ => rfl⟩
        simp
      have := enhancePass_inv headers [] ⟨"", "", "", []⟩ hbase (by simpa using hnd)
      simp only [List.nil_append] at this
      exact ⟨this.2.2.2.2.1, this.2.2.2.2.2.1, this.2.2.2.2.2.2.1, this.2.2.2.2.2.2.2.1⟩

/-- Claim C6 (corrected), counterexample: on the duplicate-free header
list `["Quiz","Exam","Test"]` every header matches the grade patterns and
none matches id/name, so after the grade pass the positional fallback
re-assigns the first two headers: the final mapping has
`id = grade = "Quiz"` and `name = "Exam" ∈ gradeColumns`, violating the
claimed disjointness of the additional grade columns from the
identifier/name columns. -/
theorem detectHeaders_overlap_counterexample :
    (detectHeaders ["Quiz", "Exam", "Test"]).id = "Quiz" ∧
    (detectHeaders ["Quiz", "Exam", "Test"]).name = "Exam" ∧
    (detectHeaders ["Quiz", "Exam", "Test"]).grade = "Quiz" ∧
    (detectHeaders ["Quiz", "Exam", "Test"]).gradeColumns = ["Exam", "Test"] := by
  decide

/-- Claim C6 (corrected, amended): every assigned column name of an
inferred mapping is an element of the input header list (always, for both
`detectHeaders` and the empty-sheet enhancement).  The uniqueness and
disjointness guarantees need the input headers pairwise distinct — with a
duplicated header both functions repeat it (a duplicate grade header is
pushed onto the grade columns again, so on `["Quiz","Quiz"]` the enhanced
mapping has its primary grade inside its grade columns and on
`["Quiz","Exam","Exam"]` duplicate grade columns).  Under that proviso:
`detectHeaders`' additional grade columns are pairwise unique and none
equals the primary grade column — but they may still coincide with the
identifier or name column, which the positional fallbacks assign after
the grade pass (see the counterexample); the enhanced empty-sheet
mapping keeps its grade columns pairwise unique and disjoint from
identifier, name and primary grade. -/
theorem headerMapping_membership_uniqueness (headers : List String) :
    (MapsInto headers (detectHeaders headers) ∧
      (headers.Nodup → (detectHeaders headers).gradeColumns.Nodup ∧
        (detectHeaders headers).grade ∉ (detectHeaders headers).gradeColumns)) ∧
    (∀ gp m, enhanceHeaderMappingForEmptySheet headers gp = some m →
      MapsInto headers m ∧
      (headers.Nodup → m.gradeColumns.Nodup ∧ m.id ∉ m.gradeColumns ∧
        m.name ∉ m.gradeColumns ∧ m.grade ∉ m.gradeColumns)) := by
  refine ⟨⟨?_, detectHeaders_unique headers⟩, fun gp m heq => enhance_spec headers gp m heq⟩
  unfold detectHeaders
  dsimp only
  split
  · exact detectGradeFallback_maps _ _ (detectPositionalFallback_maps _ _
      (detectNameFallback_maps _ _ (detectIdFallback_maps _ _
        (detectGradePass_maps _ _ (detectPass1_spec headers).1))))
  · exact detectGradePass_maps _ _ (detectPass1_spec headers).1

/-- Witness for the amended C6 at the headers `["ID","Name","Quiz","Exam"]`
(pairwise distinct, fully pattern-resolvable). -/
theorem headerMapping_membership_uniqueness_witness :
    (MapsInto ["ID", "Name", "Quiz", "Exam"] (detectHeaders ["ID", "Name", "Quiz", "Exam"]) ∧
      (detectHeaders ["ID", "Name", "Quiz", "Exam"]).gradeColumns.Nodup ∧
      (detectHeaders ["ID", "Name", "Quiz", "Exam"]).grade
        ∉ (detectHeaders ["ID", "Name", "Quiz", "Exam"]).gradeColumns) ∧
    (MapsInto ["ID", "Name", "Quiz", "Exam"]
        (⟨"ID", "Name", "Quiz", ["Exam"]⟩ : HeaderMapping) ∧
      (⟨"ID", "Name", "Quiz", ["Exam"]⟩ : HeaderMapping).gradeColumns.Nodup ∧
      "ID" ∉ ["Exam"] ∧ "Name" ∉ ["Exam"] ∧ "Quiz" ∉ ["Exam"]) := by
  have hd := (headerMapping_membership_uniqueness ["ID", "Name", "Quiz", "Exam"]).1
  have he := (headerMapping_membership_uniqueness ["ID", "Name", "Quiz", "Exam"]).2
    (some ⟨"x", "y", "z", []⟩) ⟨"ID", "Name", "Quiz", ["Exam"]⟩ (by decide)
  exact ⟨⟨hd.1, hd.2 (by decide)⟩, he.1, (he.2 (by decide)).1, (he.2 (by decide)).2.1,
    (he.2 (by decide)).2.2.1, (he.2 (by decide)).2.2.2⟩

/-- Claim C4 (confirmed): `commitEdit` succeeds exactly when the raw text
is empty or parses as a floating-point number (`parseFloat` not NaN); on
any other text it takes the `ValidationError` branch and leaves the grade
store, history and cursor completely unchanged. -/
theorem commitEdit_validation (st : GState) (sid col raw : String) :
    (saveGradeResult raw = SaveResult.ok ↔ (raw = "" ∨ (parseFloat raw).isSome)) ∧
    (saveGradeResult raw = SaveResult.invalid → saveGrade st sid col raw = st) := by
  have hval : validateGrade raw = true ↔ (raw = "" ∨ (parseFloat raw).isSome) := by
    unfold validateGrade
    by_cases h : raw = "" <;> simp [h]
  constructor
  · unfold saveGradeResult
    by_cases hv : validateGrade raw <;> simp [hv] at hval ⊢ <;> tauto
  · intro h
    unfold saveGradeResult at h
    by_cases hv : validateGrade raw
    · simp [hv] at h
    · unfold saveGrade
      simp [hv]

/-- Witness for C4 at the concrete failing text `"abc"`: validation
rejects it and the state is returned untouched. -/
theorem commitEdit_validation_witness :
    saveGradeResult "abc" = SaveResult.invalid ∧
      saveGrade emptySession "s1" "G" "abc" = emptySession :=
  ⟨by decide, (commitEdit_validation emptySession "s1" "G" "abc").2 (by decide)⟩

/-- Claim C7 (code_bug): the no-op check `oldValue === newValue` reads the
old value through the falsy coercion `grades[sid]?.[col] || ""`, so for a
cell currently holding the number `0`, re-committing `"0"` — a commit
whose new value equals the current value — is **not** treated as a no-op:
it appends a history entry (with a corrupted `oldValue` of `""`) and
advances the cursor, contradicting the code's own `Don't save if no
change` intent.  Concretely: after committing `"0"` the cell holds `0`;
committing `"0"` again grows the history from 1 to 2 entries and moves
the cursor from 0 to 1. -/
theorem noop_zero_commit_appends :
    (saveGrade emptySession "s1" "G" "0").grades "s1" "G" = some (.n (.fin ⟨0, 1⟩)) ∧
    (saveGrade emptySession "s1" "G" "0").editHistory.length = 1 ∧
    (saveGrade emptySession "s1" "G" "0").currentHistoryIndex = 0 ∧
    (saveGrade (saveGrade emptySession "s1" "G" "0") "s1" "G" "0").editHistory.length = 2 ∧
    (saveGrade (saveGrade emptySession "s1" "G" "0") "s1" "G" "0").currentHistoryIndex = 1 := by
  decide

/-- Claim C3 (code_bug): undo immediately followed by redo does not always
restore the pre-undo value.  Trace: commit `"0"` then `"5"` on the same
cell (the second entry records `oldValue = ""` instead of `0` because of
the `|| ""` coercion), undo once — the cell now reads `""` with the first
entry at the cursor.  From this reachable state, undo+redo leaves the
cursor at its pre-undo position 0 but sets the cell to `0`, not to its
exact pre-undo value `""`. -/
theorem undo_redo_zero_value_divergence :
    (handleUndo (saveGrade (saveGrade emptySession "s1" "G" "0") "s1" "G" "5")).grades
        "s1" "G" = some (.s "") ∧
    (handleUndo (saveGrade (saveGrade emptySession "s1" "G" "0") "s1" "G" "5")).currentHistoryIndex
        = 0 ∧
    (handleRedo (handleUndo
        (handleUndo (saveGrade (saveGrade emptySession "s1" "G" "0") "s1" "G" "5")))).currentHistoryIndex
        = 0 ∧
    (handleRedo (handleUndo
        (handleUndo (saveGrade (saveGrade emptySession "s1" "G" "0") "s1" "G" "5")))).grades
        "s1" "G" = some (.n (.fin ⟨0, 1⟩)) := by
  decide

set_option maxRecDepth 10000 in
/-- Claim C1 (code_bug): the history cap itself holds (50 entries after 50
and after 51 commits, the oldest entry evicted), but on the eviction
commit the cursor updater `Math.min(prev + 1, editHistory.length)` reads
the stale pre-commit length 50 and leaves the cursor at 50 — equal to the
new length, one past the last valid index 49 — instead of clamping it to
`length - 1`. -/
theorem editHistory_cap_cursor_overflow :
    (commitAll emptySession (fiftyOneCommits.take 50)).editHistory.length = 50 ∧
    (commitAll emptySession (fiftyOneCommits.take 50)).currentHistoryIndex = 49 ∧
    (commitAll emptySession fiftyOneCommits).editHistory.length = 50 ∧
    (commitAll emptySession fiftyOneCommits).currentHistoryIndex = 50 := by
  decide

theorem seqInv_init (students : List Student) (mapping : HeaderMapping) :
    SeqInv students mapping (initialState students mapping) := by
  refine ⟨by simp [initialState], ?_, ?_, ?_⟩
  · intro e he
    simp [initialState] at he
  · intro sid col
    rfl
  · intro j hj
    simp [initialState] at hj

/-- Claim C2 (corrected), counterexample: with a student whose original
primary-grade value is the number `0`, one committed edit to the other
grade column, and `jumpTo(length-1)`, the reconstructed store differs
from the sequentially-committed store: the untouched `0` cell is reset to
`""` by the `student[column] || ""` coercion of the jump's reset loop, so
the two states are not equal. -/
theorem jumpTo_zero_value_counterexample :
    (sessionAfter [cexStudentZero] cexMapping [("s1", "G2", "7")]).editHistory.length = 1 ∧
    (sessionAfter [cexStudentZero] cexMapping [("s1", "G2", "7")]).grades "s1" "G1"
        = some (.n (.fin ⟨0, 1⟩)) ∧
    (jumpToHistoryPoint [cexStudentZero] cexMapping
        (sessionAfter [cexStudentZero] cexMapping [("s1", "G2", "7")]) 0).grades "s1" "G1"
        = some (.s "") := by
  decide

/-- Claim C2 (corrected, amended): for commits restricted to seeded
students and mapped grade columns, at most 50 of them (no eviction), none
committing the number 0, and with every student's original grade-column
values defined and truthy, the claim holds as stated: after the commits
the cursor sits at `length-1`; `jumpTo(length-1)` reproduces exactly the
sequentially-committed store; and for every retained index,
`jumpTo(index)` produces the store and cursor of sequential undo down to
that index. -/
theorem jumpTo_replay_equivalence
    (students : List Student) (mapping : HeaderMapping)
    (cs : List (String × String × String))
    (h50 : cs.length ≤ 50)
    (hcs : ∀ c ∈ cs, c.1 ∈ studentKeys students mapping ∧
        c.2.1 ∈ getAllGradeColumns mapping ∧ notZeroParse c.2.2 = true)
    (horig : ∀ st ∈ students, ∀ c ∈ getAllGradeColumns mapping, optTruthy (st c) = true) :
    (sessionAfter students mapping cs).currentHistoryIndex
        = ((sessionAfter students mapping cs).editHistory.length : Int) - 1 ∧
    (∀ sid col,
      (jumpToHistoryPoint students mapping (sessionAfter students mapping cs)
          (((sessionAfter students mapping cs).editHistory.length : Int) - 1)).grades sid col
        = (sessionAfter students mapping cs).grades sid col) ∧
    (∀ k : Nat, k < (sessionAfter students mapping cs).editHistory.length →
      (jumpToHistoryPoint students mapping (sessionAfter students mapping cs)
          (((sessionAfter students mapping cs).editHistory.length : Int) - 1 - k)).currentHistoryIndex
        = (undoTimes (sessionAfter students mapping cs) k).currentHistoryIndex ∧
      (∀ sid col,
        (jumpToHistoryPoint students mapping (sessionAfter students mapping cs)
            (((sessionAfter students mapping cs).editHistory.length : Int) - 1 - k)).grades sid col
          = (undoTimes (sessionAfter students mapping cs) k).grades sid col)) := by
  obtain ⟨hInv, -⟩ := seqInv_commitAll students mapping horig cs
    (initialState students mapping) (seqInv_init students mapping)
    (by simpa [initialState] using h50) hcs
  refine ⟨hInv.cursor, ?_, ?_⟩
  · intro sid col
    show replay
        ((sessionAfter students mapping cs).editHistory.take
          ((((sessionAfter students mapping cs).editHistory.length : Int) - 1) + 1).toNat)
        (resetGrades students mapping (sessionAfter students mapping cs).grades) sid col
      = (sessionAfter students mapping cs).grades sid col
    have ht : ((((sessionAfter students mapping cs).editHistory.length : Int) - 1) + 1).toNat
        = (sessionAfter students mapping cs).editHistory.length := by omega
    rw [ht, List.take_length]
    have hcongr := replay_congr (sessionAfter students mapping cs).editHistory _ _
      (reset_eq_seed students mapping (sessionAfter students mapping cs) hInv horig) sid col
    rw [hcongr]
    exact (hInv.grades_eq sid col).symm
  · intro k hk
    obtain ⟨hh, hc, hg⟩ :=
      undoTimes_spec students mapping (sessionAfter students mapping cs) hInv k (le_of_lt hk)
    constructor
    · show ((sessionAfter students mapping cs).editHistory.length : Int) - 1 - k
        = (undoTimes (sessionAfter students mapping cs) k).currentHistoryIndex
      rw [hc]
    · intro sid col
      show replay
          ((sessionAfter students mapping cs).editHistory.take
            ((((sessionAfter students mapping cs).editHistory.length : Int) - 1 - k) + 1).toNat)
          (resetGrades students mapping (sessionAfter students mapping cs).grades) sid col
        = (undoTimes (sessionAfter students mapping cs) k).grades sid col
      have ht : ((((sessionAfter students mapping cs).editHistory.length : Int) - 1 - k) + 1).toNat
          = (sessionAfter students mapping cs).editHistory.length - k := by omega
      rw [ht]
      have hcongr := replay_congr
        ((sessionAfter students mapping cs).editHistory.take
          ((sessionAfter students mapping cs).editHistory.length - k)) _ _
        (reset_eq_seed students mapping (sessionAfter students mapping cs) hInv horig) sid col
      rw [hcongr]
      exact (hg sid col).symm

/-- Witness for the amended C2 at a concrete session: one student with
truthy originals, one commit; `jumpTo(length-1)` agrees with the
sequential state on both grade cells. -/
theorem jumpTo_replay_equivalence_witness :
    (jumpToHistoryPoint [cexStudentOne] cexMapping
        (sessionAfter [cexStudentOne] cexMapping [("s1", "G2", "7")])
        (((sessionAfter [cexStudentOne] cexMapping [("s1", "G2", "7")]).editHistory.length : Int)
          - 1)).grades "s1" "G1"
      = (sessionAfter [cexStudentOne] cexMapping [("s1", "G2", "7")]).grades "s1" "G1" ∧
    (jumpToHistoryPoint [cexStudentOne] cexMapping
        (sessionAfter [cexStudentOne] cexMapping [("s1", "G2", "7")])
        (((sessionAfter [cexStudentOne] cexMapping [("s1", "G2", "7")]).editHistory.length : Int)
          - 1)).grades "s1" "G2"
      = (sessionAfter [cexStudentOne] cexMapping [("s1", "G2", "7")]).grades "s1" "G2" :=
  ⟨(jumpTo_replay_equivalence [cexStudentOne] cexMapping [("s1", "G2", "7")]
      (by decide) (by decide) (by decide)).2.1 "s1" "G1",
   (jumpTo_replay_equivalence [cexStudentOne] cexMapping [("s1", "G2", "7")]
      (by decide) (by decide) (by decide)).2.1 "s1" "G2"⟩

/-! ### The header-row scan is a stable argmax (C5) -/

theorem processHeaderRow_hasContent (row : List (Option Val))
    (h : 0 < (processHeaderRow row).2.1) : (processHeaderRow row).2.2 = true := by
  revert h
  unfold processHeaderRow
  refine List.foldlRecOn
    (motive := fun acc : List String × Nat × Bool => 0 < acc.2.1 → acc.2.2 = true)
    row.enum _ ([], 0, false) (fun h => absurd h (by decide)) ?_
  intro b hb a ha
  obtain ⟨idx, cv⟩ := a
  cases cv with
  | none => exact hb
  | some v =>
    dsimp only
    split
    · intro _; rfl
    · exact hb

theorem headerRowScanStep_eq (best : Int × List String × Nat) (n : Nat)
    (row : List (Option Val)) :
    headerRowScanStep best (n, row) =
      if best.2.2 < rowMatchCount row then
        ((n : Int), (processHeaderRow row).1, rowMatchCount row)
      else best := by
  unfold headerRowScanStep rowMatchCount
  dsimp only
  by_cases h : best.2.2 < (processHeaderRow row).2.1
  · have hpos : 0 < (processHeaderRow row).2.1 := Nat.lt_of_le_of_lt (Nat.zero_le _) h
    rw [if_pos ⟨processHeaderRow_hasContent row hpos, hpos, h⟩, if_pos h]
  · rw [if_neg (fun hc => h hc.2.2), if_neg h]

theorem scanFold_spec (l : List (List (Option Val))) :
    ∀ (n : Nat) (b : Int × List String × Nat),
    ((∀ row ∈ l, rowMatchCount row ≤ b.2.2) →
      (List.enumFrom n l).foldl headerRowScanStep b = b) ∧
    ((∃ row ∈ l, b.2.2 < rowMatchCount row) →
      ∃ j, ∃ hj : j < l.length,
        (List.enumFrom n l).foldl headerRowScanStep b =
          (((n + j : Nat) : Int), (processHeaderRow (l.get ⟨j, hj⟩)).1,
            rowMatchCount (l.get ⟨j, hj⟩)) ∧
        b.2.2 < rowMatchCount (l.get ⟨j, hj⟩) ∧
        (∀ i (hi : i < l.length),
          rowMatchCount (l.get ⟨i, hi⟩) ≤ rowMatchCount (l.get ⟨j, hj⟩)) ∧
        (∀ i (hi : i < l.length), i < j →
          rowMatchCount (l.get ⟨i, hi⟩) < rowMatchCount (l.get ⟨j, hj⟩))) := by
  induction l with
  | nil =>
    intro n b
    refine ⟨fun _ => rfl, ?_⟩
    rintro ⟨row, hmem, _⟩
    cases hmem
  | cons row t ih =>
    intro n b
    have hstep : (List.enumFrom n (row :: t)).foldl headerRowScanStep b =
        (List.enumFrom (n + 1) t).foldl headerRowScanStep (headerRowScanStep b (n, row)) := rfl
    by_cases hgt : b.2.2 < rowMatchCount row
    · have hb' : headerRowScanStep b (n, row) =
          ((n : Int), (processHeaderRow row).1, rowMatchCount row) := by
        rw [headerRowScanStep_eq, if_pos hgt]
      constructor
      · intro hall
        exact absurd (hall row (List.mem_cons_self _ _)) (Nat.not_le_of_lt hgt)
      · intro _
        by_cases htail : ∃ r ∈ t, rowMatchCount row < rowMatchCount r
        · obtain ⟨j', hj', heq, hlt, hmax, hstrict⟩ :=
            (ih (n + 1) ((n : Int), (processHeaderRow row).1, rowMatchCount row)).2 htail
          refine ⟨j' + 1, Nat.succ_lt_succ hj', ?_, Nat.lt_trans hgt hlt, ?_, ?_⟩
          · rw [hstep, hb']
            have harith : n + (j' + 1) = n + 1 + j' := by omega
            rw [harith]
            exact heq
          · intro i hi
            cases i with
            | zero => exact Nat.le_of_lt hlt
            | succ i' => exact hmax i' (Nat.lt_of_succ_lt_succ hi)
          · intro i hi hij
            cases i with
            | zero => exact hlt
            | succ i' => exact hstrict i' (Nat.lt_of_succ_lt_succ hi) (Nat.lt_of_succ_lt_succ hij)
        · push_neg at htail
          have hfold :=
            (ih (n + 1) ((n : Int), (processHeaderRow row).1, rowMatchCount row)).1 htail
          refine ⟨0, Nat.succ_pos _, ?_, hgt, ?_, ?_⟩
          · rw [hstep, hb', hfold]
            rfl
          · intro i hi
            cases i with
            | zero => exact Nat.le_refl _
            | succ i' => exact htail _ (t.get_mem _ _)
          · intro i hi hij
            exact absurd hij (Nat.not_lt_zero i)
    · have hb' : headerRowScanStep b (n, row) = b := by
        rw [headerRowScanStep_eq, if_neg hgt]
      constructor
      · intro hall
        have hfold := (ih (n + 1) b).1 (fun r hr => hall r (List.mem_cons_of_mem _ hr))
        rw [hstep, hb']
        exact hfold
      · rintro ⟨r, hr, hlt⟩
        cases hr with
        | head => exact absurd hlt hgt
        | tail _ hr' =>
          obtain ⟨j', hj', heq, hlt', hmax, hstrict⟩ := (ih (n + 1) b).2 ⟨r, hr', hlt⟩
          refine ⟨j' + 1, Nat.succ_lt_succ hj', ?_, hlt', ?_, ?_⟩
          · rw [hstep, hb']
            have harith : n + (j' + 1) = n + 1 + j' := by omega
            rw [harith]
            exact heq
          · intro i hi
            cases i with
            | zero => exact Nat.le_of_lt (Nat.lt_of_le_of_lt (Nat.le_of_not_lt hgt) hlt')
            | succ i' => exact hmax i' (Nat.lt_of_succ_lt_succ hi)
          · intro i hi hij
            cases i with
            | zero => exact Nat.lt_of_le_of_lt (Nat.le_of_not_lt hgt) hlt'
            | succ i' => exact hstrict i' (Nat.lt_of_succ_lt_succ hi) (Nat.lt_of_succ_lt_succ hij)

/-- Claim C5 (confirmed): the single-pass header-row scan is a stable
argmax over the keyword match counts. If the scan reports no header row
(index `-1`), every row's match count is zero; if it reports row `r`,
then `r` is in range, the recorded headers and count are those of row
`r`, row `r`'s match count is nonzero and maximal over all rows, and
every earlier row's count is strictly smaller (so a tie keeps the
first-encountered row: match count descending, then row index
ascending). -/
theorem headerRowScan_argmax (grid : Grid) :
    ((headerRowScan grid).1 = -1 →
      ∀ j (hj : j < grid.length), rowMatchCount (grid.get ⟨j, hj⟩) = 0) ∧
    (∀ r : Nat, (headerRowScan grid).1 = (r : Int) →
      ∃ hr : r < grid.length,
        (headerRowScan grid).2.1 = (processHeaderRow (grid.get ⟨r, hr⟩)).1 ∧
        (headerRowScan grid).2.2 = rowMatchCount (grid.get ⟨r, hr⟩) ∧
        0 < rowMatchCount (grid.get ⟨r, hr⟩) ∧
        (∀ i (hi : i < grid.length),
          rowMatchCount (grid.get ⟨i, hi⟩) ≤ rowMatchCount (grid.get ⟨r, hr⟩)) ∧
        (∀ i (hi : i < grid.length), i < r →
          rowMatchCount (grid.get ⟨i, hi⟩) < rowMatchCount (grid.get ⟨r, hr⟩))) := by
  have hscan : headerRowScan grid =
      (List.enumFrom 0 grid).foldl headerRowScanStep (-1, [], 0) := rfl
  by_cases hall : ∀ row ∈ grid, rowMatchCount row ≤ 0
  · have h0 := (scanFold_spec grid 0 (-1, [], 0)).1 hall
    constructor
    · intro _ j hj
      exact Nat.le_zero.mp (hall _ (grid.get_mem _ _))
    · intro r hr1
      rw [hscan, h0] at hr1
      have hc : (-1 : Int) = (r : Int) := hr1
      exact absurd hc (by omega)
  · push_neg at hall
    obtain ⟨j, hj, heq, hlt, hmax, hstrict⟩ := (scanFold_spec grid 0 (-1, [], 0)).2 hall
    constructor
    · intro hneg
      rw [hscan, heq] at hneg
      have hc : ((0 + j : Nat) : Int) = -1 := hneg
      exact absurd hc (by omega)
    · intro r hr1
      rw [hscan, heq] at hr1
      have hjr : ((0 + j : Nat) : Int) = (r : Int) := hr1
      have hjr' : j = r := by omega
      subst hjr'
      refine ⟨hj, ?_, ?_, hlt, hmax, hstrict⟩
      · rw [hscan, heq]
      · rw [hscan, heq]

/-- Witness for C5: on `cexGrid` (match counts 0, 2, 1) the scan selects
row 1 with its count, the count is maximal, and the earlier row is
strictly smaller. -/
theorem headerRowScan_argmax_witness :
    (headerRowScan cexGrid).1 = (1 : Int) ∧
    (headerRowScan cexGrid).2.2 = rowMatchCount (cexGrid.get ⟨1, by decide⟩) ∧
    0 < rowMatchCount (cexGrid.get ⟨1, by decide⟩) ∧
    rowMatchCount (cexGrid.get ⟨0, by decide⟩) < rowMatchCount (cexGrid.get ⟨1, by decide⟩) ∧
    rowMatchCount (cexGrid.get ⟨2, by decide⟩) ≤ rowMatchCount (cexGrid.get ⟨1, by decide⟩) := by
  obtain ⟨hr, hhdr, hcnt, hpos, hmax, hstrict⟩ :=
    (headerRowScan_argmax cexGrid).2 1 (by decide)
  exact ⟨by decide, hcnt, hpos, hstrict 0 (by decide) (by decide), hmax 2 (by decide)⟩

/-! ### The scan-failure fallback is the raw export (C9) -/

theorem copyRow_go (l : Row) :
    ∀ acc : Row, l.foldl (fun a kv => a ++ [kv]) acc = acc ++ l := by
  induction l with
  | nil => intro acc; simp
  | cons x t ih =>
    intro acc
    show t.foldl _ (acc ++ [x]) = acc ++ x :: t
    rw [ih]
    simp

theorem copyRow_id (row : Row) : copyRow row = row := by
  unfold copyRow
  rw [copyRow_go]
  simp

/-- Claim C9 (confirmed): whenever both the keyword header-row scan and
the numeric/content-shape fallback fail to locate a header row together
with id and name columns, `processArabicExcelSheet` returns exactly the
raw `sheet_to_json` export — every record copied key for key, so all
original column labels are exposed unmodified and no data row is
dropped beyond the raw export itself. -/
theorem scan_failure_fallback_identity (grid : Grid)
    (h : (fullScan grid).1 < 0 ∨ (fullScan grid).2.1 < 0 ∨ (fullScan grid).2.2 < 0) :
    processArabicExcelSheet grid = sheetToJson grid := by
  unfold processArabicExcelSheet
  dsimp only
  rw [if_pos h]
  by_cases hlen : (sheetToJson grid).length > 0
  · rw [if_pos hlen]
    have hcopy : ∀ r0 ∈ sheetToJson grid, copyRow r0 = r0 := fun r0 _ => copyRow_id r0
    rw [List.map_congr_left hcopy]
    exact List.map_id' (sheetToJson grid)
  · rw [if_neg hlen]
    have hsj : sheetToJson grid = [] := by
      cases hs : sheetToJson grid with
      | nil => rfl
      | cons a t => rw [hs] at hlen; simp at hlen
    rw [hsj]

/-- Witness for C9: on `cexGrid9` both scans fail and the fallback is
the raw export unchanged. -/
theorem scan_failure_fallback_identity_witness :
    ((fullScan cexGrid9).1 < 0 ∨ (fullScan cexGrid9).2.1 < 0 ∨
      (fullScan cexGrid9).2.2 < 0) ∧
    processArabicExcelSheet cexGrid9 = sheetToJson cexGrid9 :=
  ⟨Or.inl (by decide), scan_failure_fallback_identity cexGrid9 (Or.inl (by decide))⟩

/-! ### Ingestion rejections (C10) -/

/-- Claim C10 (confirmed): `parseExcelFile` rejects with a `ParseError`
on every zero-byte file, every file extension outside the xlsx/xls
allow-list, every container `XLSX.read` cannot parse, and every workbook
with zero sheets; the rejection carries no sheets and no partial
state. -/
theorem parseExcelFile_rejects (f : ExcelFile)
    (h : f.size = 0 ∨
      (fileExtension f.name ≠ "xlsx" ∧ fileExtension f.name ≠ "xls") ∨
      f.workbook = none ∨ f.workbook = some []) :
    isParseError (parseExcelFile f) = true := by
  unfold parseExcelFile
  by_cases hs : f.size ≤ 0
  · rw [if_pos hs]; rfl
  · rw [if_neg hs]
    by_cases hext : fileExtension f.name ≠ "xlsx" ∧ fileExtension f.name ≠ "xls"
    · rw [if_pos hext]; rfl
    · rw [if_neg hext]
      rcases h with h | h | h | h
      · exact absurd (Nat.le_of_eq h) hs
      · exact absurd h hext
      · rw [h]; rfl
      · rw [h]; rfl

/-- Witness for C10 (Scenario D): the zero-byte `cexFile` is rejected. -/
theorem parseExcelFile_rejects_witness :
    (cexFile.size = 0 ∨
      (fileExtension cexFile.name ≠ "xlsx" ∧ fileExtension cexFile.name ≠ "xls") ∨
      cexFile.workbook = none ∨ cexFile.workbook = some []) ∧
    isParseError (parseExcelFile cexFile) = true :=
  ⟨Or.inl rfl, parseExcelFile_rejects cexFile (Or.inl rfl)⟩

end GradeEntry
